import Mathlib

/-!
Verification of the routa coordination core against its specification.

The development shallowly embeds three components of the source:
* `Routa.PgTaskStore` — the Postgres-backed task store
  (`src/core/db/pg-task-store.ts`); the SQL statements are embedded as pure
  functions over a list of rows.
* `Routa.EventBus` — the in-process publish/subscribe hub
  (`src/core/coordination/event-bus.ts`).
* `Routa.HttpSessionStore` — the per-session SSE notification pipe
  (`src/core/acp/http-session-store.ts`).

JavaScript `Map`s are embedded as insertion-ordered association lists or as
total functions with an explicit default, matching each use site; JS `Set`s
as duplicate-free lists in insertion order; optional fields with their
defaulted reads (`?? 0`, truthiness) applied exactly where the source
applies them.
-/

namespace Routa

/-- Task status enumeration (`src/core/models/task.ts`). -/
inductive TaskStatus
  | PENDING
  | IN_PROGRESS
  | COMPLETED
  | NEEDS_FIX
  | BLOCKED
  deriving DecidableEq, Repr

/-- A task row as stored by `PgTaskStore` (timestamps embedded as `Nat`,
the verification verdict as a plain string). -/
structure Task where
  id : String
  title : String := ""
  objective : String := ""
  scope : Option String := none
  acceptanceCriteria : List String := []
  verificationCommands : List String := []
  assignedTo : Option String := none
  status : TaskStatus
  dependencies : List String := []
  parallelGroup : Option String := none
  workspaceId : String
  completionSummary : Option String := none
  verificationVerdict : Option String := none
  verificationReport : Option String := none
  version : Nat := 1
  createdAt : Nat := 0
  updatedAt : Nat := 0
  deriving DecidableEq, Repr

/-- The whitelisted partial update accepted by `atomicUpdate`
(`Partial<Pick<Task, "status" | "completionSummary" | "verificationVerdict"
| "verificationReport" | "assignedTo">>`); `none` embeds an absent key. -/
structure TaskUpdates where
  status : Option TaskStatus := none
  completionSummary : Option String := none
  verificationVerdict : Option String := none
  verificationReport : Option String := none
  assignedTo : Option String := none
  deriving DecidableEq, Repr

namespace PgTaskStore

/-- Spreading one optional key over an optional column: a present key
replaces the stored value, an absent key leaves it. -/
def spreadOpt (upd : Option String) (old : Option String) : Option String :=
  match upd with
  | some v => some v
  | none => old

/-- The `SET` clause of `atomicUpdate` applied to one row:
`{ ...updates, version: version + 1, updatedAt: new Date() }`. -/
def applyUpdates (u : TaskUpdates) (now : Nat) (t : Task) : Task :=
  { t with
    status := match u.status with
      | some s => s
      | none => t.status
    completionSummary := spreadOpt u.completionSummary t.completionSummary
    verificationVerdict := spreadOpt u.verificationVerdict t.verificationVerdict
    verificationReport := spreadOpt u.verificationReport t.verificationReport
    assignedTo := spreadOpt u.assignedTo t.assignedTo
    version := t.version + 1
    updatedAt := now }

/-- The `WHERE` clause of `atomicUpdate`:
`and(eq(tasks.id, taskId), eq(tasks.version, expectedVersion))`. -/
def rowMatches (taskId : String) (expectedVersion : Nat) (r : Task) : Bool :=
  r.id == taskId && r.version == expectedVersion

/-- `PgTaskStore.atomicUpdate` (pg-task-store.ts 121-138): a SQL `UPDATE`
over the table rows; returns the updated table and `rowCount > 0`. -/
def atomicUpdate (rows : List Task) (taskId : String) (expectedVersion : Nat)
    (updates : TaskUpdates) (now : Nat) : List Task × Bool :=
  let rows' := rows.map fun r =>
    if rowMatches taskId expectedVersion r then applyUpdates updates now r else r
  let rowCount := rows.countP (rowMatches taskId expectedVersion)
  (rows', decide (rowCount > 0))

/-- `listByWorkspace` (pg-task-store.ts 69-75): the rows of one workspace,
in table order. -/
def listByWorkspace (rows : List Task) (workspaceId : String) : List Task :=
  rows.filter fun t => t.workspaceId == workspaceId

/-- `new Map(allTasks.map(t => [t.id, t])).get(depId)`: a later entry with
the same key overwrites an earlier one, so the lookup finds the last. -/
def mapLookup (entries : List Task) (taskId : String) : Option Task :=
  (entries.filter fun t => t.id == taskId).getLast?

/-- The `every` callback of `findReadyTasks`:
`const dep = taskMap.get(depId); return dep && dep.status === "COMPLETED"`. -/
def depCompleted (entries : List Task) (depId : String) : Bool :=
  match mapLookup entries depId with
  | some dep => dep.status == TaskStatus.COMPLETED
  | none => false

/-- `PgTaskStore.findReadyTasks` (pg-task-store.ts 93-104): the PENDING
tasks of the workspace all of whose dependencies resolve, inside the
workspace's own task map, to a COMPLETED record. -/
def findReadyTasks (rows : List Task) (workspaceId : String) : List Task :=
  let allTasks := listByWorkspace rows workspaceId
  allTasks.filter fun task =>
    task.status == TaskStatus.PENDING &&
    task.dependencies.all fun depId => depCompleted allTasks depId

/-- The readiness condition exactly as the specification words it (claim
refinement side): the dependency record may exist anywhere in the store,
not only inside workspace `w`. -/
def specReady (rows : List Task) (w : String) (t : Task) : Prop :=
  t.workspaceId = w ∧ t.status = TaskStatus.PENDING ∧
    ∀ d ∈ t.dependencies, ∃ dep ∈ rows, dep.id = d ∧ dep.status = TaskStatus.COMPLETED

instance (rows : List Task) (w : String) (t : Task) : Decidable (specReady rows w t) := by
  unfold specReady; infer_instance

end PgTaskStore

/-! Concrete stores used to instantiate the task-store theorems. -/

/-- A pending task of workspace `w1` whose only dependency `D` lives in a
different workspace. -/
def c2TaskT : Task :=
  { id := "T", status := TaskStatus.PENDING, dependencies := ["D"], workspaceId := "w1" }

/-- The dependency record: COMPLETED, but stored under workspace `w2`. -/
def c2TaskD : Task :=
  { id := "D", status := TaskStatus.COMPLETED, workspaceId := "w2" }

/-- The two-row store separating the spec's global-existence reading from
the code's per-workspace lookup. -/
def c2Rows : List Task := [c2TaskT, c2TaskD]

/-- A completed dependency inside workspace `w1`. -/
def c2TaskA : Task :=
  { id := "A", status := TaskStatus.COMPLETED, workspaceId := "w1" }

/-- A pending task of `w1` depending on `A`. -/
def c2TaskB : Task :=
  { id := "B", status := TaskStatus.PENDING, dependencies := ["A"], workspaceId := "w1" }

/-- Same-workspace store for the amended readiness theorem's witness. -/
def c2RowsW : List Task := [c2TaskA, c2TaskB]

/-- A stored task at version 1 for the `atomicUpdate` witness. -/
def c1Task : Task :=
  { id := "A", status := TaskStatus.PENDING, workspaceId := "w", version := 1 }

/-- A sibling row, untouched by the update. -/
def c1Other : Task :=
  { id := "B", status := TaskStatus.PENDING, workspaceId := "w", version := 3 }

/-- The two-row store for the `atomicUpdate` witness. -/
def c1Rows : List Task := [c1Task, c1Other]

/-- The partial update used by the `atomicUpdate` witness. -/
def c1U : TaskUpdates :=
  { status := some TaskStatus.COMPLETED, completionSummary := some "done" }

/-! ## EventBus (`src/unnamed/part_003`) -/

/-- Domain event kinds (`AgentEventType`). -/
inductive AgentEventType
  | AGENT_CREATED
  | AGENT_ACTIVATED
  | AGENT_COMPLETED
  | AGENT_ERROR
  | TASK_ASSIGNED
  | TASK_COMPLETED
  | TASK_FAILED
  | TASK_STATUS_CHANGED
  | MESSAGE_SENT
  | REPORT_SUBMITTED
  | WORKSPACE_UPDATED
  deriving DecidableEq, Repr

/-- `AgentEvent`; the untyped `data` payload is embedded as opaque string
pairs, the timestamp as a `Nat`. -/
structure AgentEvent where
  type : AgentEventType
  agentId : String
  workspaceId : String := ""
  data : List (String × String) := []
  timestamp : Nat := 0
  deriving DecidableEq, Repr

/-- `EventSubscription`; the optional `oneShot` and `priority` fields are
embedded with their defaulted reads already applied (`sub.oneShot`
truthiness, `sub.priority ?? 0`), which is how every use site reads them. -/
structure EventSubscription where
  id : String
  agentId : String
  agentName : String := ""
  eventTypes : List AgentEventType
  excludeSelf : Bool := false
  oneShot : Bool := false
  waitGroupId : Option String := none
  priority : Int := 0
  deriving DecidableEq, Repr

/-- Observable outcome of invoking a handler or `onComplete` callback: the
call either returns or throws. -/
inductive CbOutcome
  | ok
  | threw (msg : String)
  deriving DecidableEq, Repr

/-- `WaitGroup`; `completedAgentIds` (a JS `Set`) is a duplicate-free list
in insertion order; the `onComplete` callback is embedded by the outcome it
produces when invoked (`none` = no callback registered). -/
structure WaitGroup where
  id : String
  parentAgentId : String
  expectedAgentIds : List String
  completedAgentIds : List String := []
  onComplete : Option CbOutcome := none
  deriving DecidableEq, Repr

/-- The bookkeeping data of a wait group, without its callback. -/
structure WaitGroupData where
  id : String
  parentAgentId : String
  expectedAgentIds : List String
  completedAgentIds : List String
  deriving DecidableEq, Repr

/-- Forget a wait group's callback. -/
def WaitGroup.data (g : WaitGroup) : WaitGroupData :=
  ⟨g.id, g.parentAgentId, g.expectedAgentIds, g.completedAgentIds⟩

/-- `EventBus` state. `handlers`, `subscriptions` and `waitGroups` are JS
`Map`s embedded as insertion-ordered lists keyed by handler key,
subscription id and group id; `pendingEvents` is embedded as a total
function defaulting to `[]`, which is how the source reads it
(`this.pendingEvents.get(...) ?? []`). -/
structure BusState where
  handlers : List (String × (AgentEvent → CbOutcome)) := []
  subscriptions : List EventSubscription := []
  pendingEvents : String → List AgentEvent := fun _ => []
  waitGroups : List WaitGroup := []

namespace EventBus

/-- `Map.set` keyed by subscription id: replace in place, else append. -/
def subsSet (subs : List EventSubscription) (s : EventSubscription) :
    List EventSubscription :=
  if subs.any fun t => t.id == s.id then
    subs.map fun t => if t.id == s.id then s else t
  else subs ++ [s]

/-- `EventBus.subscribe` (part_003 138-140). -/
def subscribe (bus : BusState) (s : EventSubscription) : BusState :=
  { bus with subscriptions := subsSet bus.subscriptions s }

/-- `EventBus.unsubscribe` (part_003 145-147): `Map.delete` returns
whether the key existed. -/
def unsubscribe (bus : BusState) (subscriptionId : String) : BusState × Bool :=
  ({ bus with subscriptions := bus.subscriptions.filter fun t => t.id != subscriptionId },
   bus.subscriptions.any fun t => t.id == subscriptionId)

/-- `EventBus.drainPendingEvents` (part_003 152-156): return the queue and
delete the key. -/
def drainPendingEvents (bus : BusState) (agentId : String) :
    BusState × List AgentEvent :=
  ({ bus with pendingEvents := fun a => if a == agentId then [] else bus.pendingEvents a },
   bus.pendingEvents agentId)

/-- Stable insertion into a priority-descending list: the element goes
before the first strictly-lower priority and after ties — the relative
order a stable `sort((a, b) => (b.priority ?? 0) - (a.priority ?? 0))`
produces. -/
def insertByPrio (s : EventSubscription) :
    List EventSubscription → List EventSubscription
  | [] => [s]
  | t :: ts => if s.priority ≥ t.priority then s :: t :: ts else t :: insertByPrio s ts

/-- The stable priority-descending sort of step 2 of `emit`. -/
def sortByPrioDesc : List EventSubscription → List EventSubscription
  | [] => []
  | s :: ss => insertByPrio s (sortByPrioDesc ss)

/-- The two `continue` guards of the buffering loop: a subscription
receives the event unless it excludes its own agent's events or does not
match the type. -/
def subMatches (e : AgentEvent) (s : EventSubscription) : Bool :=
  !(s.excludeSelf && e.agentId == s.agentId) && s.eventTypes.contains e.type

/-- `Set.add`: append unless already present. -/
def addToSet (xs : List String) (a : String) : List String :=
  if xs.contains a then xs else xs ++ [a]

/-- `EventBus.checkWaitGroups` (part_003 206-230) over the
insertion-ordered group list: each group expecting the completing agent
records it; a group whose completed-set size reaches its expected-array
length fires (recorded as the group id paired with its callback outcome)
and is deleted from the map. -/
def checkWaitGroups (completedAgentId : String) :
    List WaitGroup → List WaitGroup × List (String × Option CbOutcome)
  | [] => ([], [])
  | g :: gs =>
    let rest := checkWaitGroups completedAgentId gs
    if g.expectedAgentIds.contains completedAgentId then
      let completed := addToSet g.completedAgentIds completedAgentId
      if completed.length ≥ g.expectedAgentIds.length then
        (rest.1, (g.id, g.onComplete) :: rest.2)
      else
        ({ g with completedAgentIds := completed } :: rest.1, rest.2)
    else
      (g :: rest.1, rest.2)

/-- What one `emit` call reports: the published event, each direct
handler's outcome in registration order, the matched buffered
subscriptions in processing order, and the wait groups fired. -/
structure EmitOut where
  event : AgentEvent
  handlerResults : List (String × CbOutcome)
  matched : List EventSubscription
  fired : List (String × Option CbOutcome)
  deriving DecidableEq, Repr

/-- `EventBus.emit` (part_003 87-130): run every direct handler catching
its exception, buffer the event for matching subscriptions ordered by
priority (stable descending), remove the matched one-shot subscriptions
after queuing, then scan wait groups on completion-type events. -/
def emit (bus : BusState) (e : AgentEvent) : BusState × EmitOut :=
  let handlerResults := bus.handlers.map fun p => (p.1, p.2 e)
  let sortedSubs := sortByPrioDesc bus.subscriptions
  let matched := sortedSubs.filter (subMatches e)
  let pending := matched.foldl
    (fun pe s => fun a => if a == s.agentId then pe a ++ [e] else pe a)
    bus.pendingEvents
  let oneShotToRemove := (matched.filter fun s => s.oneShot).map fun s => s.id
  let subs := bus.subscriptions.filter fun s => !(oneShotToRemove.contains s.id)
  let wg :=
    if e.type = AgentEventType.AGENT_COMPLETED
        ∨ e.type = AgentEventType.REPORT_SUBMITTED then
      checkWaitGroups e.agentId bus.waitGroups
    else (bus.waitGroups, [])
  ({ handlers := bus.handlers, subscriptions := subs, pendingEvents := pending,
     waitGroups := wg.1 },
   { event := e, handlerResults := handlerResults, matched := matched, fired := wg.2 })

/-- `Map.set` keyed by group id: replace in place, else append. -/
def wgSet (groups : List WaitGroup) (g : WaitGroup) : List WaitGroup :=
  if groups.any fun t => t.id == g.id then
    groups.map fun t => if t.id == g.id then g else t
  else groups ++ [g]

/-- `EventBus.createWaitGroup` (part_003 164-177): registers the group
with a fresh empty completed set. -/
def createWaitGroup (bus : BusState) (id parentAgentId : String)
    (expectedAgentIds : List String) (onComplete : Option CbOutcome) : BusState :=
  let g : WaitGroup :=
    { id := id, parentAgentId := parentAgentId,
      expectedAgentIds := expectedAgentIds,
      completedAgentIds := [], onComplete := onComplete }
  { bus with waitGroups := wgSet bus.waitGroups g }

/-- `EventBus.addToWaitGroup` (part_003 182-187): push the agent onto the
expected array unless already expected. -/
def addToWaitGroup (bus : BusState) (groupId agentId : String) : BusState :=
  { bus with waitGroups := bus.waitGroups.map fun g =>
      if g.id == groupId && !(g.expectedAgentIds.contains agentId) then
        { g with expectedAgentIds := g.expectedAgentIds ++ [agentId] }
      else g }

/-- `EventBus.getWaitGroup` (part_003 192-194). -/
def getWaitGroup (bus : BusState) (groupId : String) : Option WaitGroup :=
  bus.waitGroups.find? fun g => g.id == groupId

/-- `EventBus.removeWaitGroup` (part_003 199-201). -/
def removeWaitGroup (bus : BusState) (groupId : String) : BusState :=
  { bus with waitGroups := bus.waitGroups.filter fun g => g.id != groupId }

/-- Bus operations whose interleavings the trace claims quantify over. -/
inductive BusOp
  | publish (e : AgentEvent)
  | subscribeOp (s : EventSubscription)
  | unsubscribeOp (id : String)
  | drain (agentId : String)

/-- One step's observable output. -/
structure StepOut where
  emitted : Option EmitOut := none
  drained : Option (String × List AgentEvent) := none

/-- One bus operation. -/
def stepBus (bus : BusState) : BusOp → BusState × StepOut
  | .publish e =>
    let r := emit bus e
    (r.1, { emitted := some r.2 })
  | .subscribeOp s => (subscribe bus s, {})
  | .unsubscribeOp id => ((unsubscribe bus id).1, {})
  | .drain agentId =>
    let r := drainPendingEvents bus agentId
    (r.1, { drained := some (agentId, r.2) })

/-- Run a sequence of bus operations, collecting each step's output. -/
def runBus (bus : BusState) : List BusOp → BusState × List StepOut
  | [] => (bus, [])
  | op :: ops =>
    let r := stepBus bus op
    let rest := runBus r.1 ops
    (rest.1, r.2 :: rest.2)

/-- A publish-only trace: fold `emit` over a list of events. -/
def runEmits (bus : BusState) : List AgentEvent → BusState × List EmitOut
  | [] => (bus, [])
  | e :: es =>
    let r := emit bus e
    let rest := runEmits r.1 es
    (rest.1, r.2 :: rest.2)

/-- The events one emit appends to agent `a`'s pending queue (one copy per
matched subscription owned by `a`, in processing order). -/
def emitAppends (o : EmitOut) (a : String) : List AgentEvent :=
  (o.matched.filter fun s => s.agentId == a).map fun _ => o.event

/-- All appends to agent `a`'s queue across a trace. -/
def traceAppends (outs : List StepOut) (a : String) : List AgentEvent :=
  (outs.map fun o => match o.emitted with
    | some eo => emitAppends eo a
    | none => []).flatten

/-- All drain results for agent `a` across a trace. -/
def traceDrains (outs : List StepOut) (a : String) : List AgentEvent :=
  (outs.map fun o => match o.drained with
    | some r => if r.1 == a then r.2 else []
    | none => []).flatten

/-- How often the group with id `gid` fires across an emit trace. -/
def countFires (outs : List EmitOut) (gid : String) : Nat :=
  (outs.map fun o => o.fired.countP fun p => p.1 == gid).sum

/-- How often subscription id `sid` is matched (hence delivered to) across
an emit trace. -/
def countMatched (outs : List EmitOut) (sid : String) : Nat :=
  (outs.map fun o => o.matched.countP fun s => s.id == sid).sum

/-- Wait-group well-formedness: the completed set is a duplicate-free
subset of the expected ids, and a group still in the map has not yet
reached its firing threshold (unless nothing has completed). -/
def WGInv (g : WaitGroup) : Prop :=
  g.completedAgentIds.Nodup
    ∧ (∀ x ∈ g.completedAgentIds, x ∈ g.expectedAgentIds)
    ∧ (g.completedAgentIds = []
        ∨ g.completedAgentIds.length < g.expectedAgentIds.length)

/-- Bus-level wait-group invariant: distinct group ids, each group
well-formed. -/
def BusWGInv (bus : BusState) : Prop :=
  (bus.waitGroups.map WaitGroup.id).Nodup ∧ ∀ g ∈ bus.waitGroups, WGInv g

end EventBus

/-! ## HttpSessionStore (`src/core/acp/http-session-store.ts`) -/

/-- JSON values, as fed to the store's `JSON.stringify` call site. -/
inductive Json
  | null
  | bool (b : Bool)
  | num (n : Int)
  | str (s : String)
  | arr (elems : List Json)
  | obj (fields : List (String × Json))

/-- Lower-case hex digit, for JSON control-character escapes. -/
def hexDigit (n : Nat) : String :=
  String.singleton (if n < 10 then Char.ofNat (48 + n) else Char.ofNat (87 + n))

/-- `JSON.stringify`'s escaping of one character inside a string. -/
def escapeChar (c : Char) : String :=
  if c = '"' then "\\\""
  else if c = '\\' then "\\\\"
  else if c = '\n' then "\\n"
  else if c = '\r' then "\\r"
  else if c = '\t' then "\\t"
  else if c = Char.ofNat 8 then "\\b"
  else if c = Char.ofNat 12 then "\\f"
  else if c.toNat < 32 then "\\u00" ++ hexDigit (c.toNat / 16) ++ hexDigit (c.toNat % 16)
  else String.singleton c

/-- A JSON string literal: quoted and escaped. -/
def jsonQuote (s : String) : String :=
  "\"" ++ String.join (s.toList.map escapeChar) ++ "\""

mutual

/-- `JSON.stringify` (no indentation), object keys in insertion order. -/
def stringify : Json → String
  | .null => "null"
  | .bool b => if b then "true" else "false"
  | .num n => toString n
  | .str s => jsonQuote s
  | .arr xs => "[" ++ stringifyElems xs ++ "]"
  | .obj fs => "\x7b" ++ stringifyFields fs ++ "\x7d"

/-- Comma-joined array elements. -/
def stringifyElems : List Json → String
  | [] => ""
  | [x] => stringify x
  | x :: y :: xs => stringify x ++ "," ++ stringifyElems (y :: xs)

/-- Comma-joined `"key":value` fields. -/
def stringifyFields : List (String × Json) → String
  | [] => ""
  | [(k, v)] => jsonQuote k ++ ":" ++ stringify v
  | (k, v) :: g :: fs => jsonQuote k ++ ":" ++ stringify v ++ "," ++ stringifyFields (g :: fs)

end

/-- `SessionNotification` (ACP SDK): a session id plus the `session/update`
payload, embedded as JSON. -/
structure SessionNotification where
  sessionId : String
  update : Json

/-- JSON rendering of a notification, keys in declaration order. -/
def notifJson (n : SessionNotification) : Json :=
  .obj [("sessionId", .str n.sessionId), ("update", n.update)]

/-- An SSE `ReadableStreamDefaultController`; `alive = false` embeds a
controller whose `enqueue` throws (a dead transport). -/
structure Controller where
  cid : Nat
  alive : Bool
  deriving DecidableEq, Repr

/-- The JSON-RPC envelope built at each delivery site:
`jsonrpc: "2.0", method: "session/update", params`. -/
def envelope (params : Json) : Json :=
  .obj [("jsonrpc", .str "2.0"), ("method", .str "session/update"), ("params", params)]

/-- The SSE frame text: `data: <JSON>\n\n`. -/
def sseFrame (payload : Json) : String :=
  "data: " ++ stringify payload ++ "\n\n"

namespace HttpSessionStore

/-- `writeSse` (http-session-store.ts 103-112): enqueue the frame; an
enqueue that throws is swallowed, dropping the frame. -/
def writeSse (c : Controller) (payload : Json) : Option String :=
  if c.alive then some (sseFrame payload) else none

/-- A successful write: which controller got which frame for which
session. -/
structure SseWrite where
  sessionId : String
  cid : Nat
  frame : String
  deriving DecidableEq, Repr

/-- Store state: the transport table and the per-session buffers, both JS
`Map`s embedded as total functions (`none` / `[]` for an absent key, which
is how the source reads them). -/
structure PipeState where
  sseControllers : String → Option Controller
  pendingNotifications : String → List SessionNotification

/-- `pushNotification` (http-session-store.ts 50-65): write through an
attached transport, otherwise append to the session's buffer. -/
def pushNotification (st : PipeState) (n : SessionNotification) :
    PipeState × List SseWrite :=
  match st.sseControllers n.sessionId with
  | some c =>
    (st, match writeSse c (envelope (notifJson n)) with
      | some frame => [⟨n.sessionId, c.cid, frame⟩]
      | none => [])
  | none =>
    ({ st with pendingNotifications := fun s =>
        if s == n.sessionId then st.pendingNotifications s ++ [n]
        else st.pendingNotifications s }, [])

/-- `flushPending` (http-session-store.ts 86-101): write every buffered
notification in FIFO order (each write individually swallowing a
dead-transport failure), then delete the buffer. -/
def flushPending (st : PipeState) (sessionId : String) :
    PipeState × List SseWrite :=
  match st.sseControllers sessionId with
  | none => (st, [])
  | some c =>
    let pending := st.pendingNotifications sessionId
    if pending.isEmpty then (st, [])
    else
      ({ st with pendingNotifications := fun s =>
          if s == sessionId then [] else st.pendingNotifications s },
       pending.filterMap fun n =>
         (writeSse c (envelope (notifJson n))).map fun frame =>
           ⟨sessionId, c.cid, frame⟩)

/-- `attachSse` (http-session-store.ts 38-41): register the transport,
then flush. -/
def attachSse (st : PipeState) (sessionId : String) (c : Controller) :
    PipeState × List SseWrite :=
  flushPending
    { st with sseControllers := fun s =>
        if s == sessionId then some c else st.sseControllers s }
    sessionId

/-- `detachSse` (http-session-store.ts 43-45). -/
def detachSse (st : PipeState) (sessionId : String) : PipeState :=
  { st with sseControllers := fun s =>
      if s == sessionId then none else st.sseControllers s }

/-- The fixed `params` of the synthetic connected notification
(http-session-store.ts 76-82). -/
def connectedParams (sessionId : String) : Json :=
  .obj [("sessionId", .str sessionId),
        ("update", .obj [("sessionUpdate", .str "agent_thought_chunk"),
                         ("content", .obj [("type", .str "text"),
                                           ("text", .str "SSE connected.")])])]

/-- `pushConnected` (http-session-store.ts 70-84): write only if a
transport is attached right now; never buffered. -/
def pushConnected (st : PipeState) (sessionId : String) :
    PipeState × List SseWrite :=
  match st.sseControllers sessionId with
  | none => (st, [])
  | some c =>
    (st, match writeSse c (envelope (connectedParams sessionId)) with
      | some frame => [⟨sessionId, c.cid, frame⟩]
      | none => [])

/-- Pipe operations whose interleavings the claims quantify over. -/
inductive PipeOp
  | push (n : SessionNotification)
  | attach (sessionId : String) (c : Controller)
  | detach (sessionId : String)
  | connected (sessionId : String)

/-- One pipe operation. -/
def stepPipe (st : PipeState) : PipeOp → PipeState × List SseWrite
  | .push n => pushNotification st n
  | .attach sessionId c => attachSse st sessionId c
  | .detach sessionId => (detachSse st sessionId, [])
  | .connected sessionId => pushConnected st sessionId

/-- Run a sequence of pipe operations, concatenating the writes. -/
def runPipe (st : PipeState) : List PipeOp → PipeState × List SseWrite
  | [] => (st, [])
  | op :: ops =>
    let r := stepPipe st op
    let rest := runPipe r.1 ops
    (rest.1, r.2 ++ rest.2)

/-- The frames written for session `s`, in order. -/
def framesFor (writes : List SseWrite) (s : String) : List String :=
  (writes.filter fun w => w.sessionId == s).map fun w => w.frame

/-- The notifications pushed for session `s` by a trace, in call order. -/
def pushesFor (ops : List PipeOp) (s : String) : List SessionNotification :=
  match ops with
  | [] => []
  | PipeOp.push n :: rest =>
    if n.sessionId == s then n :: pushesFor rest s else pushesFor rest s
  | _ :: rest => pushesFor rest s

/-- The frame a notification produces when delivered. -/
def frameOfNotif (n : SessionNotification) : String :=
  sseFrame (envelope (notifJson n))

/-- Trace hypothesis of the delivery-sequence claim: only push / attach /
detach operations, and every attached transport is live. -/
def LiveOps (ops : List PipeOp) : Prop :=
  ∀ op ∈ ops, match op with
    | PipeOp.attach _ c => c.alive = true
    | PipeOp.connected _ => False
    | _ => True

/-- State hypothesis for session `s`: an attached transport is live and —
having been flushed when it attached — has no pending buffer behind it. -/
def LiveState (st : PipeState) (s : String) : Prop :=
  ∀ c, st.sseControllers s = some c → c.alive = true ∧ st.pendingNotifications s = []

end HttpSessionStore

instance (g : WaitGroup) : Decidable (EventBus.WGInv g) := by
  unfold EventBus.WGInv; infer_instance

instance (bus : BusState) : Decidable (EventBus.BusWGInv bus) := by
  unfold EventBus.BusWGInv; infer_instance

/-! Concrete buses, events and pipe traces used to instantiate the
EventBus and session-pipe theorems. -/

/-- AGENT_COMPLETED signal from agent `a`. -/
def evA : AgentEvent := { type := AgentEventType.AGENT_COMPLETED, agentId := "a" }

/-- AGENT_COMPLETED signal from agent `b`. -/
def evB : AgentEvent := { type := AgentEventType.AGENT_COMPLETED, agentId := "b" }

/-- A fresh two-member wait group. -/
def c3Grp : WaitGroup :=
  { id := "g", parentAgentId := "p", expectedAgentIds := ["a", "b"],
    completedAgentIds := [], onComplete := some CbOutcome.ok }

/-- Bus holding only `c3Grp`. -/
def c3Bus : BusState := { waitGroups := [c3Grp] }

/-- Signal `a` twice, then `b`. -/
def c3Events : List AgentEvent := [evA, evA, evB]

/-- A single-member wait group about to fire. -/
def c3GrpOne : WaitGroup :=
  { id := "h", parentAgentId := "p", expectedAgentIds := ["a"],
    completedAgentIds := [], onComplete := some (CbOutcome.threw "boom") }

/-- Bus holding only `c3GrpOne`. -/
def c3BusOne : BusState := { waitGroups := [c3GrpOne] }

/-- A half-completed two-member wait group (`a` already signaled). -/
def c3GrpHalf : WaitGroup :=
  { id := "k", parentAgentId := "p", expectedAgentIds := ["a", "b"],
    completedAgentIds := ["a"], onComplete := some CbOutcome.ok }

/-- Bus holding only `c3GrpHalf`. -/
def c3BusHalf : BusState := { waitGroups := [c3GrpHalf] }

/-- A one-shot subscription owned by agent `obs`. -/
def c4Sub : EventSubscription :=
  { id := "sub1", agentId := "obs", eventTypes := [AgentEventType.MESSAGE_SENT],
    excludeSelf := false, oneShot := true }

/-- Bus holding only the one-shot subscription. -/
def c4Bus : BusState := { subscriptions := [c4Sub] }

/-- A matching event published by a different agent. -/
def c4Ev : AgentEvent := { type := AgentEventType.MESSAGE_SENT, agentId := "pub" }

/-- The same matching event published twice. -/
def c4Events : List AgentEvent := [c4Ev, c4Ev]

/-- Priority-0 subscription, registered first. -/
def c6Sub0 : EventSubscription :=
  { id := "s0", agentId := "obs", eventTypes := [AgentEventType.MESSAGE_SENT],
    excludeSelf := false, priority := 0 }

/-- Priority-5 subscription, registered second. -/
def c6Sub5 : EventSubscription :=
  { id := "s5", agentId := "obs", eventTypes := [AgentEventType.MESSAGE_SENT],
    excludeSelf := false, priority := 5 }

/-- Priority-10 subscription, registered last. -/
def c6Sub10 : EventSubscription :=
  { id := "s10", agentId := "obs", eventTypes := [AgentEventType.MESSAGE_SENT],
    excludeSelf := false, priority := 10 }

/-- Bus with the three subscriptions registered in ascending priority
order, so priority ordering cannot hide behind registration order. -/
def c6Bus : BusState := { subscriptions := [c6Sub0, c6Sub5, c6Sub10] }

/-- The event all three subscriptions match. -/
def c6Ev : AgentEvent := { type := AgentEventType.MESSAGE_SENT, agentId := "pub" }

/-- A single-member wait group whose callback returns normally. -/
def c7Grp : WaitGroup :=
  { id := "g", parentAgentId := "p", expectedAgentIds := ["a"],
    completedAgentIds := [], onComplete := some CbOutcome.ok }

/-- The same group but with a throwing callback. -/
def c7GrpThrew : WaitGroup :=
  { id := "g", parentAgentId := "p", expectedAgentIds := ["a"],
    completedAgentIds := [], onComplete := some (CbOutcome.threw "x") }

/-- Bus holding only `c7Grp`. -/
def c7Bus : BusState := { waitGroups := [c7Grp] }

/-- A wait group created with an empty expected array. -/
def c10GrpEmpty : WaitGroup :=
  { id := "n", parentAgentId := "p", expectedAgentIds := [],
    completedAgentIds := [], onComplete := some CbOutcome.ok }

/-- A wait group whose expected array lists agent `a` twice. -/
def c10GrpDup : WaitGroup :=
  { id := "m", parentAgentId := "p", expectedAgentIds := ["a", "a"],
    completedAgentIds := [], onComplete := some CbOutcome.ok }

/-- Bus holding the empty-expected and duplicated-expected groups. -/
def c10Bus : BusState := { waitGroups := [c10GrpEmpty, c10GrpDup] }

/-- Signals for both expected agents. -/
def c10Events : List AgentEvent := [evA, evA, evB]

/-- Notifications 1-4 for session `s`. -/
def c5N1 : SessionNotification := ⟨"s", Json.str "one"⟩

/-- Second notification. -/
def c5N2 : SessionNotification := ⟨"s", Json.str "two"⟩

/-- Third notification. -/
def c5N3 : SessionNotification := ⟨"s", Json.str "three"⟩

/-- Fourth notification. -/
def c5N4 : SessionNotification := ⟨"s", Json.str "four"⟩

/-- The empty pipe state. -/
def c5St0 : HttpSessionStore.PipeState :=
  { sseControllers := fun _ => none, pendingNotifications := fun _ => [] }

/-- A live transport. -/
def c5Ctrl : Controller := ⟨0, true⟩

/-- Buffer two notifications, attach (flushing them), push one while
attached, detach, buffer one more. -/
def c5Ops : List HttpSessionStore.PipeOp :=
  [HttpSessionStore.PipeOp.push c5N1, HttpSessionStore.PipeOp.push c5N2,
   HttpSessionStore.PipeOp.attach "s" c5Ctrl, HttpSessionStore.PipeOp.push c5N3,
   HttpSessionStore.PipeOp.detach "s", HttpSessionStore.PipeOp.push c5N4]

/-- A dead transport: its enqueue throws. -/
def c5CtrlDead : Controller := ⟨1, false⟩

/-- A pipe state whose every session holds the dead transport. -/
def c5StDead : HttpSessionStore.PipeState :=
  { sseControllers := fun _ => some c5CtrlDead, pendingNotifications := fun _ => [] }

/-- Attach, push one notification, send the synthetic connected frame. -/
def c9Ops : List HttpSessionStore.PipeOp :=
  [HttpSessionStore.PipeOp.attach "s" c5Ctrl, HttpSessionStore.PipeOp.push c5N1,
   HttpSessionStore.PipeOp.connected "s"]

/-- The frame the c9 trace writes for its pushed notification. -/
def c9Write : HttpSessionStore.SseWrite :=
  ⟨"s", 0, HttpSessionStore.frameOfNotif c5N1⟩

namespace PgTaskStore

lemma atomicUpdate_fst (rows : List Task) (taskId : String) (v : Nat)
    (u : TaskUpdates) (now : Nat) :
    (atomicUpdate rows taskId v u now).1
      = rows.map fun r => if rowMatches taskId v r then applyUpdates u now r else r := rfl

lemma atomicUpdate_snd (rows : List Task) (taskId : String) (v : Nat)
    (u : TaskUpdates) (now : Nat) :
    (atomicUpdate rows taskId v u now).2
      = decide (rows.countP (rowMatches taskId v) > 0) := rfl

lemma rowMatches_iff (taskId : String) (v : Nat) (r : Task) :
    rowMatches taskId v r = true ↔ r.id = taskId ∧ r.version = v := by
  simp [rowMatches]

/-- `new Map(entries).get(d)` characterized, given the table's primary-key
uniqueness: the lookup returns exactly the unique record with id `d`. -/
lemma mapLookup_eq_some_iff {l : List Task} (hnd : (l.map Task.id).Nodup)
    {d : String} {dep : Task} :
    mapLookup l d = some dep ↔ dep ∈ l ∧ dep.id = d := by
  induction l with
  | nil => simp [mapLookup]
  | cons x xs ih =>
    rw [List.map_cons, List.nodup_cons] at hnd
    by_cases hx : x.id = d
    · have hxs : xs.filter (fun t => t.id == d) = [] := by
        refine List.filter_eq_nil_iff.mpr fun y hy hyd => ?_
        rw [beq_iff_eq] at hyd
        exact hnd.1 (hx ▸ hyd ▸ List.mem_map_of_mem Task.id hy)
      constructor
      · intro h
        simp only [mapLookup, List.filter_cons, beq_iff_eq, if_pos hx, hxs,
          List.getLast?_singleton, Option.some.injEq] at h
        exact h ▸ ⟨List.mem_cons_self x xs, hx⟩
      · rintro ⟨hmem, hd⟩
        rcases List.mem_cons.mp hmem with rfl | hmem
        · simp [mapLookup, List.filter_cons, hx, hxs]
        · exact absurd (hx ▸ hd ▸ List.mem_map_of_mem Task.id hmem) hnd.1
    · have : mapLookup (x :: xs) d = mapLookup xs d := by
        simp [mapLookup, List.filter_cons, hx]
      rw [this, ih hnd.2]
      constructor
      · rintro ⟨hmem, hd⟩; exact ⟨List.mem_cons_of_mem x hmem, hd⟩
      · rintro ⟨hmem, hd⟩
        rcases List.mem_cons.mp hmem with rfl | hmem
        · exact absurd hd hx
        · exact ⟨hmem, hd⟩

/-- The dependency check of `findReadyTasks` characterized. -/
lemma depCompleted_iff {l : List Task} (hnd : (l.map Task.id).Nodup)
    (d : String) :
    depCompleted l d = true
      ↔ ∃ dep ∈ l, dep.id = d ∧ dep.status = TaskStatus.COMPLETED := by
  cases h : mapLookup l d with
  | none =>
    simp only [depCompleted, h, Bool.false_eq_true, false_iff]
    rintro ⟨dep, hmem, hd, _⟩
    exact absurd ((mapLookup_eq_some_iff hnd).mpr ⟨hmem, hd⟩) (by simp [h])
  | some dep =>
    rcases (mapLookup_eq_some_iff hnd).mp h with ⟨hmem, hd⟩
    simp only [depCompleted, h, beq_iff_eq]
    constructor
    · intro hc; exact ⟨dep, hmem, hd, hc⟩
    · rintro ⟨dep', hmem', hd', hc'⟩
      have : mapLookup l d = some dep' := (mapLookup_eq_some_iff hnd).mpr ⟨hmem', hd'⟩
      rw [h, Option.some.injEq] at this
      exact this ▸ hc'

end PgTaskStore

/-- C1. `atomicUpdate(id, v, u)` on a store holding a task `t` with that id:
it returns true iff `t.version = v`; on success the store becomes the
row-wise update applying `u`'s whitelisted fields to the matching row, the
updated record is stored with version `v + 1`; on mismatch the store is
unchanged. -/
theorem c1_atomicUpdate_version_gate
    (rows : List Task) (t : Task) (v : Nat) (u : TaskUpdates) (now : Nat)
    (hnd : (rows.map Task.id).Nodup) (hmem : t ∈ rows) :
    ((PgTaskStore.atomicUpdate rows t.id v u now).2 = true ↔ t.version = v)
    ∧ (t.version = v →
        (PgTaskStore.atomicUpdate rows t.id v u now).1
          = rows.map fun r =>
              if r.id == t.id then PgTaskStore.applyUpdates u now r else r)
    ∧ (t.version = v →
        PgTaskStore.applyUpdates u now t ∈ (PgTaskStore.atomicUpdate rows t.id v u now).1
          ∧ (PgTaskStore.applyUpdates u now t).version = v + 1)
    ∧ (t.version ≠ v → (PgTaskStore.atomicUpdate rows t.id v u now).1 = rows) := by
  have hinj : ∀ r ∈ rows, r.id = t.id → r = t := fun r hr h =>
    List.inj_on_of_nodup_map hnd hr hmem h
  refine ⟨?_, ?_, ?_, ?_⟩
  · rw [PgTaskStore.atomicUpdate_snd, decide_eq_true_iff]
    constructor
    · intro h
      obtain ⟨r, hr, hm⟩ := List.countP_pos_iff.mp h
      rcases (PgTaskStore.rowMatches_iff _ _ _).mp hm with ⟨hid, hv⟩
      rcases hinj r hr hid with rfl
      exact hv
    · intro hv
      exact List.countP_pos_iff.mpr
        ⟨t, hmem, (PgTaskStore.rowMatches_iff _ _ _).mpr ⟨rfl, hv⟩⟩
  · intro hv
    rw [PgTaskStore.atomicUpdate_fst]
    refine List.map_congr_left fun r hr => ?_
    by_cases hid : r.id = t.id
    · rcases hinj r hr hid with rfl
      simp [PgTaskStore.rowMatches, hv]
    · simp [PgTaskStore.rowMatches, hid]
  · intro hv
    constructor
    · rw [PgTaskStore.atomicUpdate_fst]
      have h := List.mem_map_of_mem
        (fun r => if PgTaskStore.rowMatches t.id v r then PgTaskStore.applyUpdates u now r else r)
        hmem
      simpa [PgTaskStore.rowMatches, hv] using h
    · simp [PgTaskStore.applyUpdates, hv]
  · intro hv
    rw [PgTaskStore.atomicUpdate_fst]
    have h : ∀ r ∈ rows,
        (if PgTaskStore.rowMatches t.id v r then PgTaskStore.applyUpdates u now r else r) = r := by
      intro r hr
      by_cases hid : r.id = t.id
      · rcases hinj r hr hid with rfl
        simp [PgTaskStore.rowMatches, hv]
      · simp [PgTaskStore.rowMatches, hid]
    rw [List.map_congr_left h]
    exact List.map_id' rows

/-- Witness instantiating `c1_atomicUpdate_version_gate` on a concrete
two-row store at matching version 1. -/
theorem c1_atomicUpdate_version_gate_witness :
    ((c1Rows.map Task.id).Nodup ∧ c1Task ∈ c1Rows)
    ∧ (((PgTaskStore.atomicUpdate c1Rows c1Task.id 1 c1U 7).2 = true ↔ c1Task.version = 1)
      ∧ (c1Task.version = 1 →
          (PgTaskStore.atomicUpdate c1Rows c1Task.id 1 c1U 7).1
            = c1Rows.map fun r =>
                if r.id == c1Task.id then PgTaskStore.applyUpdates c1U 7 r else r)
      ∧ (c1Task.version = 1 →
          PgTaskStore.applyUpdates c1U 7 c1Task
              ∈ (PgTaskStore.atomicUpdate c1Rows c1Task.id 1 c1U 7).1
            ∧ (PgTaskStore.applyUpdates c1U 7 c1Task).version = 1 + 1)
      ∧ (c1Task.version ≠ 1 → (PgTaskStore.atomicUpdate c1Rows c1Task.id 1 c1U 7).1 = c1Rows)) :=
  ⟨⟨by decide, by decide⟩,
    c1_atomicUpdate_version_gate c1Rows c1Task 1 c1U 7 (by decide) (by decide)⟩

/-- C2 counterexample: task `T` of workspace `w1` satisfies the claim's
readiness condition (its dependency `D` exists in the store and is
COMPLETED), yet the code does not report it ready, because the dependency
lookup map only contains workspace `w1`'s own tasks. -/
theorem c2_findReadyTasks_counterexample :
    PgTaskStore.specReady c2Rows "w1" c2TaskT
      ∧ c2TaskT ∉ PgTaskStore.findReadyTasks c2Rows "w1" := by
  decide

/-- C2 amended: `T ∈ findReadyTasks(W)` iff `T` belongs to workspace `W`,
is PENDING, and every dependency id names an existing task record **in
workspace `W`** whose status is COMPLETED. -/
theorem c2_findReadyTasks_ready_iff
    (rows : List Task) (w : String) (t : Task)
    (hnd : (rows.map Task.id).Nodup) :
    t ∈ PgTaskStore.findReadyTasks rows w
      ↔ t ∈ rows ∧ t.workspaceId = w ∧ t.status = TaskStatus.PENDING ∧
          ∀ d ∈ t.dependencies, ∃ dep ∈ rows,
            dep.workspaceId = w ∧ dep.id = d ∧ dep.status = TaskStatus.COMPLETED := by
  have hsub : (PgTaskStore.listByWorkspace rows w).Sublist rows :=
    List.filter_sublist rows
  have hndw : ((PgTaskStore.listByWorkspace rows w).map Task.id).Nodup :=
    (hsub.map Task.id).nodup hnd
  have hmemw : ∀ x : Task, x ∈ PgTaskStore.listByWorkspace rows w
      ↔ x ∈ rows ∧ x.workspaceId = w := by
    intro x
    simp [PgTaskStore.listByWorkspace, List.mem_filter]
  constructor
  · intro h
    rw [PgTaskStore.findReadyTasks, List.mem_filter] at h
    rcases h with ⟨hmem, hcond⟩
    rw [Bool.and_eq_true, beq_iff_eq, List.all_eq_true] at hcond
    rcases (hmemw t).mp hmem with ⟨hrow, hws⟩
    refine ⟨hrow, hws, hcond.1, fun d hd => ?_⟩
    rcases (PgTaskStore.depCompleted_iff hndw d).mp (hcond.2 d hd)
      with ⟨dep, hdepmem, hdid, hdst⟩
    rcases (hmemw dep).mp hdepmem with ⟨hdeprow, hdepws⟩
    exact ⟨dep, hdeprow, hdepws, hdid, hdst⟩
  · rintro ⟨hrow, hws, hst, hdeps⟩
    rw [PgTaskStore.findReadyTasks, List.mem_filter]
    refine ⟨(hmemw t).mpr ⟨hrow, hws⟩, ?_⟩
    rw [Bool.and_eq_true, beq_iff_eq, List.all_eq_true]
    refine ⟨hst, fun d hd => ?_⟩
    rcases hdeps d hd with ⟨dep, hdeprow, hdepws, hdid, hdst⟩
    exact (PgTaskStore.depCompleted_iff hndw d).mpr
      ⟨dep, (hmemw dep).mpr ⟨hdeprow, hdepws⟩, hdid, hdst⟩

/-- Witness instantiating `c2_findReadyTasks_ready_iff` on a concrete
same-workspace store where `B` depends on the completed `A`. -/
theorem c2_findReadyTasks_ready_iff_witness :
    (c2RowsW.map Task.id).Nodup
    ∧ (c2TaskB ∈ PgTaskStore.findReadyTasks c2RowsW "w1"
        ↔ c2TaskB ∈ c2RowsW ∧ c2TaskB.workspaceId = "w1"
            ∧ c2TaskB.status = TaskStatus.PENDING ∧
            ∀ d ∈ c2TaskB.dependencies, ∃ dep ∈ c2RowsW,
              dep.workspaceId = "w1" ∧ dep.id = d
                ∧ dep.status = TaskStatus.COMPLETED) :=
  ⟨by decide, c2_findReadyTasks_ready_iff c2RowsW "w1" c2TaskB (by decide)⟩

namespace EventBus

/-! Helper lemmas: projections of `emit`. -/

lemma emit_matched (bus : BusState) (e : AgentEvent) :
    (emit bus e).2.matched
      = (sortByPrioDesc bus.subscriptions).filter (subMatches e) := rfl

lemma emit_event (bus : BusState) (e : AgentEvent) :
    (emit bus e).2.event = e := rfl

lemma emit_handlerResults (bus : BusState) (e : AgentEvent) :
    (emit bus e).2.handlerResults = bus.handlers.map fun p => (p.1, p.2 e) := rfl

lemma emit_subscriptions (bus : BusState) (e : AgentEvent) :
    (emit bus e).1.subscriptions
      = bus.subscriptions.filter fun s =>
          !((((emit bus e).2.matched.filter fun t => t.oneShot).map fun t => t.id).contains s.id) := rfl

lemma emit_waitGroups_trigger (bus : BusState) (e : AgentEvent)
    (h : e.type = AgentEventType.AGENT_COMPLETED ∨ e.type = AgentEventType.REPORT_SUBMITTED) :
    (emit bus e).1.waitGroups = (checkWaitGroups e.agentId bus.waitGroups).1 := by
  simp only [emit]
  rw [if_pos h]

lemma emit_waitGroups_nontrigger (bus : BusState) (e : AgentEvent)
    (h : ¬(e.type = AgentEventType.AGENT_COMPLETED ∨ e.type = AgentEventType.REPORT_SUBMITTED)) :
    (emit bus e).1.waitGroups = bus.waitGroups := by
  simp only [emit]
  rw [if_neg h]

lemma emit_fired_trigger (bus : BusState) (e : AgentEvent)
    (h : e.type = AgentEventType.AGENT_COMPLETED ∨ e.type = AgentEventType.REPORT_SUBMITTED) :
    (emit bus e).2.fired = (checkWaitGroups e.agentId bus.waitGroups).2 := by
  simp only [emit]
  rw [if_pos h]

lemma emit_fired_nontrigger (bus : BusState) (e : AgentEvent)
    (h : ¬(e.type = AgentEventType.AGENT_COMPLETED ∨ e.type = AgentEventType.REPORT_SUBMITTED)) :
    (emit bus e).2.fired = [] := by
  simp only [emit]
  rw [if_neg h]

/-- Closed form of the buffering loop's effect on one agent's queue. -/
lemma foldlPending (e : AgentEvent) :
    ∀ (ms : List EventSubscription) (pe : String → List AgentEvent) (a : String),
      (ms.foldl (fun pe s => fun b => if b == s.agentId then pe b ++ [e] else pe b) pe) a
        = pe a ++ (ms.filter fun s => s.agentId == a).map (fun _ => e)
  | [], pe, a => by simp
  | s :: ms, pe, a => by
    rw [List.foldl_cons, foldlPending e ms, List.filter_cons]
    by_cases h : s.agentId = a
    · simp [h]
    · have h' : ¬(a = s.agentId) := fun hh => h hh.symm
      simp [h, h']

/-- One emit appends `emitAppends` to each agent's queue. -/
lemma emit_pending (bus : BusState) (e : AgentEvent) (a : String) :
    (emit bus e).1.pendingEvents a
      = bus.pendingEvents a ++ emitAppends (emit bus e).2 a := by
  have h := foldlPending e ((sortByPrioDesc bus.subscriptions).filter (subMatches e))
    bus.pendingEvents a
  exact h

/-! Helper lemmas: the stable priority sort. -/

lemma mem_insertByPrio {x s : EventSubscription} :
    ∀ {l : List EventSubscription}, x ∈ insertByPrio s l ↔ x = s ∨ x ∈ l
  | [] => by simp [insertByPrio]
  | t :: ts => by
    rw [insertByPrio]
    by_cases h : s.priority ≥ t.priority
    · rw [if_pos h]
      simp
    · rw [if_neg h]
      rw [List.mem_cons, List.mem_cons, mem_insertByPrio (l := ts)]
      tauto

lemma insertByPrio_perm (s : EventSubscription) :
    ∀ (l : List EventSubscription), (insertByPrio s l).Perm (s :: l)
  | [] => List.Perm.refl _
  | t :: ts => by
    rw [insertByPrio]
    by_cases h : s.priority ≥ t.priority
    · rw [if_pos h]
    · rw [if_neg h]
      exact ((insertByPrio_perm s ts).cons t).trans (List.Perm.swap s t ts)

lemma sortByPrioDesc_perm : ∀ (l : List EventSubscription), (sortByPrioDesc l).Perm l
  | [] => List.Perm.refl _
  | s :: ss => by
    rw [sortByPrioDesc]
    exact (insertByPrio_perm s (sortByPrioDesc ss)).trans ((sortByPrioDesc_perm ss).cons s)

lemma pairwise_insertByPrio {s : EventSubscription} :
    ∀ {l : List EventSubscription},
      l.Pairwise (fun a b => b.priority ≤ a.priority) →
      (insertByPrio s l).Pairwise (fun a b => b.priority ≤ a.priority)
  | [], _ => by simp [insertByPrio]
  | t :: ts, h => by
    rw [insertByPrio]
    rcases List.pairwise_cons.mp h with ⟨ht, hts⟩
    by_cases hp : s.priority ≥ t.priority
    · rw [if_pos hp]
      refine List.pairwise_cons.mpr ⟨?_, h⟩
      intro x hx
      rcases List.mem_cons.mp hx with rfl | hx
      · exact hp
      · exact le_trans (ht x hx) hp
    · rw [if_neg hp]
      refine List.pairwise_cons.mpr ⟨?_, pairwise_insertByPrio hts⟩
      intro x hx
      rcases mem_insertByPrio.mp hx with rfl | hx
      · exact le_of_lt (lt_of_not_ge hp)
      · exact ht x hx

lemma sortByPrioDesc_pairwise : ∀ (l : List EventSubscription),
    (sortByPrioDesc l).Pairwise (fun a b => b.priority ≤ a.priority)
  | [] => List.Pairwise.nil
  | s :: ss => by
    rw [sortByPrioDesc]
    exact pairwise_insertByPrio (sortByPrioDesc_pairwise ss)

/-- Stability: among subscriptions of one given priority, the sort
preserves registration order. -/
lemma filter_prio_insertByPrio (s : EventSubscription) (p : Int) :
    ∀ (l : List EventSubscription),
      (insertByPrio s l).filter (fun t => t.priority == p)
        = if s.priority == p then s :: l.filter (fun t => t.priority == p)
          else l.filter (fun t => t.priority == p)
  | [] => by
    rw [insertByPrio, List.filter_cons]
  | t :: ts => by
    rw [insertByPrio]
    by_cases hp : s.priority ≥ t.priority
    · rw [if_pos hp, List.filter_cons]
    · rw [if_neg hp, List.filter_cons, filter_prio_insertByPrio s p ts, List.filter_cons]
      by_cases hsp : s.priority = p
      · have htp : (t.priority == p) = false := by
          refine beq_eq_false_iff_ne.mpr fun h => ?_
          exact hp (le_of_eq (by rw [h, hsp]))
        simp [hsp, htp]
      · have hsp' : (s.priority == p) = false := beq_eq_false_iff_ne.mpr hsp
        simp [hsp']

lemma filter_prio_sort (p : Int) : ∀ (l : List EventSubscription),
    (sortByPrioDesc l).filter (fun t => t.priority == p)
      = l.filter (fun t => t.priority == p)
  | [] => rfl
  | s :: ss => by
    rw [sortByPrioDesc, filter_prio_insertByPrio, filter_prio_sort p ss, List.filter_cons]

/-! Helper lemmas: `Set.add` and `checkWaitGroups`. -/

lemma bool_false_or_true (b : Bool) : b = false ∨ b = true := by
  cases b
  · exact Or.inl rfl
  · exact Or.inr rfl

lemma mem_addToSet {xs : List String} {a x : String} :
    x ∈ addToSet xs a ↔ x ∈ xs ∨ x = a := by
  unfold addToSet
  by_cases h : xs.contains a = true
  · rw [if_pos h]
    constructor
    · exact Or.inl
    · rintro (hx | rfl)
      · exact hx
      · simpa using h
  · rw [if_neg h]
    simp

lemma addToSet_nodup {xs : List String} (h : xs.Nodup) (a : String) :
    (addToSet xs a).Nodup := by
  unfold addToSet
  by_cases hc : xs.contains a = true
  · rw [if_pos hc]
    exact h
  · rw [if_neg hc]
    have ha : a ∉ xs := by simpa using hc
    simp [List.nodup_append, h, ha]

lemma addToSet_of_mem {xs : List String} {a : String} (h : a ∈ xs) :
    addToSet xs a = xs := by
  unfold addToSet
  rw [if_pos (by simpa using h)]

lemma checkWaitGroups_cons_skip (a : String) (g : WaitGroup) (gs : List WaitGroup)
    (hc : g.expectedAgentIds.contains a = false) :
    checkWaitGroups a (g :: gs)
      = (g :: (checkWaitGroups a gs).1, (checkWaitGroups a gs).2) := by
  simp only [checkWaitGroups]
  rw [if_neg (by rw [hc]; exact Bool.false_ne_true)]

lemma checkWaitGroups_cons_fire (a : String) (g : WaitGroup) (gs : List WaitGroup)
    (hc : g.expectedAgentIds.contains a = true)
    (hl : (addToSet g.completedAgentIds a).length ≥ g.expectedAgentIds.length) :
    checkWaitGroups a (g :: gs)
      = ((checkWaitGroups a gs).1,
         (g.id, g.onComplete) :: (checkWaitGroups a gs).2) := by
  simp only [checkWaitGroups]
  rw [if_pos hc, if_pos hl]

lemma checkWaitGroups_cons_keep (a : String) (g : WaitGroup) (gs : List WaitGroup)
    (hc : g.expectedAgentIds.contains a = true)
    (hl : ¬((addToSet g.completedAgentIds a).length ≥ g.expectedAgentIds.length)) :
    checkWaitGroups a (g :: gs)
      = ({ g with completedAgentIds := addToSet g.completedAgentIds a }
           :: (checkWaitGroups a gs).1,
         (checkWaitGroups a gs).2) := by
  simp only [checkWaitGroups]
  rw [if_pos hc, if_neg hl]

lemma checkWaitGroups_kept_sublist (a : String) :
    ∀ (gs : List WaitGroup),
      List.Sublist ((checkWaitGroups a gs).1.map WaitGroup.id) (gs.map WaitGroup.id)
  | [] => List.Sublist.refl _
  | g :: gs => by
    have ih := checkWaitGroups_kept_sublist a gs
    rcases bool_false_or_true (g.expectedAgentIds.contains a) with hc | hc
    · rw [checkWaitGroups_cons_skip a g gs hc, List.map_cons, List.map_cons]
      exact ih.cons₂ g.id
    · by_cases hl : (addToSet g.completedAgentIds a).length ≥ g.expectedAgentIds.length
      · rw [checkWaitGroups_cons_fire a g gs hc hl, List.map_cons]
        exact ih.cons g.id
      · rw [checkWaitGroups_cons_keep a g gs hc hl, List.map_cons, List.map_cons]
        exact ih.cons₂ g.id

lemma checkWaitGroups_fired_sublist (a : String) :
    ∀ (gs : List WaitGroup),
      List.Sublist ((checkWaitGroups a gs).2.map Prod.fst) (gs.map WaitGroup.id)
  | [] => List.nil_sublist _
  | g :: gs => by
    have ih := checkWaitGroups_fired_sublist a gs
    rcases bool_false_or_true (g.expectedAgentIds.contains a) with hc | hc
    · rw [checkWaitGroups_cons_skip a g gs hc, List.map_cons]
      exact ih.cons g.id
    · by_cases hl : (addToSet g.completedAgentIds a).length ≥ g.expectedAgentIds.length
      · rw [checkWaitGroups_cons_fire a g gs hc hl, List.map_cons, List.map_cons]
        exact ih.cons₂ g.id
      · rw [checkWaitGroups_cons_keep a g gs hc hl, List.map_cons]
        exact ih.cons g.id

lemma checkWaitGroups_kept_cases (a : String) :
    ∀ (gs : List WaitGroup) (g' : WaitGroup), g' ∈ (checkWaitGroups a gs).1 →
      ∃ g ∈ gs, g' = g ∨
        (a ∈ g.expectedAgentIds
          ∧ g' = { g with completedAgentIds := addToSet g.completedAgentIds a }
          ∧ (addToSet g.completedAgentIds a).length < g.expectedAgentIds.length)
  | [], g', h => absurd h (List.not_mem_nil g')
  | g :: gs, g', h => by
    rcases bool_false_or_true (g.expectedAgentIds.contains a) with hc | hc
    · rw [checkWaitGroups_cons_skip a g gs hc] at h
      rcases List.mem_cons.mp h with rfl | h
      · exact ⟨g', List.mem_cons_self _ _, Or.inl rfl⟩
      · rcases checkWaitGroups_kept_cases a gs g' h with ⟨g0, hg0, hcase⟩
        exact ⟨g0, List.mem_cons_of_mem g hg0, hcase⟩
    · by_cases hl : (addToSet g.completedAgentIds a).length ≥ g.expectedAgentIds.length
      · rw [checkWaitGroups_cons_fire a g gs hc hl] at h
        rcases checkWaitGroups_kept_cases a gs g' h with ⟨g0, hg0, hcase⟩
        exact ⟨g0, List.mem_cons_of_mem g hg0, hcase⟩
      · rw [checkWaitGroups_cons_keep a g gs hc hl] at h
        rcases List.mem_cons.mp h with rfl | h
        · refine ⟨g, List.mem_cons_self _ _, Or.inr ⟨?_, rfl, lt_of_not_ge hl⟩⟩
          simpa using hc
        · rcases checkWaitGroups_kept_cases a gs g' h with ⟨g0, hg0, hcase⟩
          exact ⟨g0, List.mem_cons_of_mem g hg0, hcase⟩

lemma checkWaitGroups_kept_of_not_fire (a : String) :
    ∀ (gs : List WaitGroup) (g : WaitGroup), g ∈ gs →
      ¬(a ∈ g.expectedAgentIds
          ∧ g.expectedAgentIds.length ≤ (addToSet g.completedAgentIds a).length) →
      (if a ∈ g.expectedAgentIds
        then { g with completedAgentIds := addToSet g.completedAgentIds a } else g)
        ∈ (checkWaitGroups a gs).1
  | [], g, h, _ => absurd h (List.not_mem_nil g)
  | g0 :: gs, g, h, hnf => by
    rcases List.mem_cons.mp h with rfl | h
    · rcases bool_false_or_true (g.expectedAgentIds.contains a) with hc | hc
      · rw [checkWaitGroups_cons_skip a g gs hc]
        have ha : a ∉ g.expectedAgentIds := by simpa using hc
        rw [if_neg ha]
        exact List.mem_cons_self _ _
      · have ha : a ∈ g.expectedAgentIds := by simpa using hc
        have hl : ¬((addToSet g.completedAgentIds a).length ≥ g.expectedAgentIds.length) :=
          fun hge => hnf ⟨ha, hge⟩
        rw [checkWaitGroups_cons_keep a g gs hc hl, if_pos ha]
        exact List.mem_cons_self _ _
    · have ih := checkWaitGroups_kept_of_not_fire a gs g h hnf
      rcases bool_false_or_true (g0.expectedAgentIds.contains a) with hc | hc
      · rw [checkWaitGroups_cons_skip a g0 gs hc]
        exact List.mem_cons_of_mem g0 ih
      · by_cases hl : (addToSet g0.completedAgentIds a).length ≥ g0.expectedAgentIds.length
        · rw [checkWaitGroups_cons_fire a g0 gs hc hl]
          exact ih
        · rw [checkWaitGroups_cons_keep a g0 gs hc hl]
          exact List.mem_cons_of_mem _ ih

lemma checkWaitGroups_fired_iff (a : String) :
    ∀ (gs : List WaitGroup), (gs.map WaitGroup.id).Nodup → ∀ g ∈ gs,
      (g.id ∈ (checkWaitGroups a gs).2.map Prod.fst
        ↔ a ∈ g.expectedAgentIds
          ∧ g.expectedAgentIds.length ≤ (addToSet g.completedAgentIds a).length)
  | [], _, g, h => absurd h (List.not_mem_nil g)
  | g0 :: gs, hnd, g, h => by
    rw [List.map_cons, List.nodup_cons] at hnd
    rcases List.mem_cons.mp h with rfl | h
    · rcases bool_false_or_true (g.expectedAgentIds.contains a) with hc | hc
      · rw [checkWaitGroups_cons_skip a g gs hc]
        have ha : a ∉ g.expectedAgentIds := by simpa using hc
        constructor
        · intro hmem
          exact absurd ((checkWaitGroups_fired_sublist a gs).subset hmem) hnd.1
        · rintro ⟨ha', _⟩
          exact absurd ha' ha
      · have ha : a ∈ g.expectedAgentIds := by simpa using hc
        by_cases hl : (addToSet g.completedAgentIds a).length ≥ g.expectedAgentIds.length
        · rw [checkWaitGroups_cons_fire a g gs hc hl, List.map_cons]
          exact ⟨fun _ => ⟨ha, hl⟩, fun _ => List.mem_cons_self _ _⟩
        · rw [checkWaitGroups_cons_keep a g gs hc hl]
          constructor
          · intro hmem
            exact absurd ((checkWaitGroups_fired_sublist a gs).subset hmem) hnd.1
          · rintro ⟨_, hge⟩
            exact absurd hge hl
    · have hne : g.id ≠ g0.id := fun he =>
        hnd.1 (he ▸ List.mem_map_of_mem WaitGroup.id h)
      have ih := checkWaitGroups_fired_iff a gs hnd.2 g h
      rcases bool_false_or_true (g0.expectedAgentIds.contains a) with hc | hc
      · rw [checkWaitGroups_cons_skip a g0 gs hc]
        exact ih
      · by_cases hl : (addToSet g0.completedAgentIds a).length ≥ g0.expectedAgentIds.length
        · rw [checkWaitGroups_cons_fire a g0 gs hc hl, List.map_cons, List.mem_cons]
          constructor
          · rintro (he | hmem)
            · exact absurd he hne
            · exact ih.mp hmem
          · intro hx
            exact Or.inr (ih.mpr hx)
        · rw [checkWaitGroups_cons_keep a g0 gs hc hl]
          exact ih

lemma checkWaitGroups_fired_removed (a : String) :
    ∀ (gs : List WaitGroup), (gs.map WaitGroup.id).Nodup → ∀ gid,
      gid ∈ (checkWaitGroups a gs).2.map Prod.fst →
      gid ∉ (checkWaitGroups a gs).1.map WaitGroup.id
  | [], _, gid, h => absurd h (List.not_mem_nil gid)
  | g0 :: gs, hnd, gid, h => by
    rw [List.map_cons, List.nodup_cons] at hnd
    rcases bool_false_or_true (g0.expectedAgentIds.contains a) with hc | hc
    · rw [checkWaitGroups_cons_skip a g0 gs hc] at h ⊢
      have hgs : gid ∈ gs.map WaitGroup.id :=
        (checkWaitGroups_fired_sublist a gs).subset h
      have hne : gid ≠ g0.id := fun he => hnd.1 (he ▸ hgs)
      rw [List.map_cons]
      intro hk
      rcases List.mem_cons.mp hk with he | hk
      · exact hne he
      · exact checkWaitGroups_fired_removed a gs hnd.2 gid h hk
    · by_cases hl : (addToSet g0.completedAgentIds a).length ≥ g0.expectedAgentIds.length
      · rw [checkWaitGroups_cons_fire a g0 gs hc hl] at h ⊢
        intro hk
        have hkgs : gid ∈ gs.map WaitGroup.id :=
          (checkWaitGroups_kept_sublist a gs).subset hk
        rw [List.map_cons] at h
        rcases List.mem_cons.mp h with he | h2
        · exact hnd.1 ((show gid = g0.id from he) ▸ hkgs)
        · exact checkWaitGroups_fired_removed a gs hnd.2 gid h2 hk
      · rw [checkWaitGroups_cons_keep a g0 gs hc hl] at h ⊢
        have hgs : gid ∈ gs.map WaitGroup.id :=
          (checkWaitGroups_fired_sublist a gs).subset h
        have hne : gid ≠ g0.id := fun he => hnd.1 (he ▸ hgs)
        rw [List.map_cons]
        intro hk
        rcases List.mem_cons.mp hk with he | hk
        · exact hne he
        · exact checkWaitGroups_fired_removed a gs hnd.2 gid h hk

lemma checkWaitGroups_inv (a : String) (gs : List WaitGroup)
    (hnd : (gs.map WaitGroup.id).Nodup) (hinv : ∀ g ∈ gs, WGInv g) :
    ((checkWaitGroups a gs).1.map WaitGroup.id).Nodup
      ∧ ∀ g' ∈ (checkWaitGroups a gs).1, WGInv g' := by
  refine ⟨(checkWaitGroups_kept_sublist a gs).nodup hnd, ?_⟩
  intro g' hg'
  rcases checkWaitGroups_kept_cases a gs g' hg' with ⟨g, hg, rfl | ⟨ha, rfl, hl⟩⟩
  · exact hinv _ hg
  · rcases hinv g hg with ⟨h1, h2, _⟩
    refine ⟨addToSet_nodup h1 a, ?_, Or.inr hl⟩
    intro x hx
    rcases mem_addToSet.mp hx with hx | rfl
    · exact h2 x hx
    · exact ha

/-! Helper lemmas: `emit` and publish-only traces. -/

lemma emit_kept_subset (bus : BusState) (e : AgentEvent) (gid : String)
    (h : gid ∈ (emit bus e).1.waitGroups.map WaitGroup.id) :
    gid ∈ bus.waitGroups.map WaitGroup.id := by
  by_cases ht : e.type = AgentEventType.AGENT_COMPLETED ∨ e.type = AgentEventType.REPORT_SUBMITTED
  · rw [emit_waitGroups_trigger bus e ht] at h
    exact (checkWaitGroups_kept_sublist e.agentId bus.waitGroups).subset h
  · rwa [emit_waitGroups_nontrigger bus e ht] at h

lemma emit_fired_subset (bus : BusState) (e : AgentEvent) (gid : String)
    (h : gid ∈ (emit bus e).2.fired.map Prod.fst) :
    gid ∈ bus.waitGroups.map WaitGroup.id := by
  by_cases ht : e.type = AgentEventType.AGENT_COMPLETED ∨ e.type = AgentEventType.REPORT_SUBMITTED
  · rw [emit_fired_trigger bus e ht] at h
    exact (checkWaitGroups_fired_sublist e.agentId bus.waitGroups).subset h
  · rw [emit_fired_nontrigger bus e ht] at h
    exact absurd h (List.not_mem_nil gid)

lemma emit_wg_nodup (bus : BusState) (e : AgentEvent)
    (hnd : (bus.waitGroups.map WaitGroup.id).Nodup) :
    ((emit bus e).1.waitGroups.map WaitGroup.id).Nodup := by
  by_cases ht : e.type = AgentEventType.AGENT_COMPLETED ∨ e.type = AgentEventType.REPORT_SUBMITTED
  · rw [emit_waitGroups_trigger bus e ht]
    exact (checkWaitGroups_kept_sublist e.agentId bus.waitGroups).nodup hnd
  · rwa [emit_waitGroups_nontrigger bus e ht]

lemma emit_fired_removed (bus : BusState) (e : AgentEvent)
    (hnd : (bus.waitGroups.map WaitGroup.id).Nodup) (gid : String)
    (h : gid ∈ (emit bus e).2.fired.map Prod.fst) :
    gid ∉ (emit bus e).1.waitGroups.map WaitGroup.id := by
  by_cases ht : e.type = AgentEventType.AGENT_COMPLETED ∨ e.type = AgentEventType.REPORT_SUBMITTED
  · rw [emit_fired_trigger bus e ht] at h
    rw [emit_waitGroups_trigger bus e ht]
    exact checkWaitGroups_fired_removed e.agentId bus.waitGroups hnd gid h
  · rw [emit_fired_nontrigger bus e ht] at h
    exact absurd h (List.not_mem_nil gid)

lemma emit_businv (bus : BusState) (e : AgentEvent) (h : BusWGInv bus) :
    BusWGInv (emit bus e).1 := by
  rcases h with ⟨hnd, hinv⟩
  by_cases ht : e.type = AgentEventType.AGENT_COMPLETED ∨ e.type = AgentEventType.REPORT_SUBMITTED
  · refine ⟨?_, ?_⟩
    · rw [emit_waitGroups_trigger bus e ht]
      exact (checkWaitGroups_inv e.agentId bus.waitGroups hnd hinv).1
    · rw [emit_waitGroups_trigger bus e ht]
      exact (checkWaitGroups_inv e.agentId bus.waitGroups hnd hinv).2
  · refine ⟨?_, ?_⟩ <;> rw [emit_waitGroups_nontrigger bus e ht]
    · exact hnd
    · exact hinv

lemma runEmits_cons (bus : BusState) (e : AgentEvent) (es : List AgentEvent) :
    runEmits bus (e :: es)
      = ((runEmits (emit bus e).1 es).1,
         (emit bus e).2 :: (runEmits (emit bus e).1 es).2) := rfl

lemma countFires_cons (o : EmitOut) (outs : List EmitOut) (gid : String) :
    countFires (o :: outs) gid
      = o.fired.countP (fun p => p.1 == gid) + countFires outs gid := by
  simp [countFires]

lemma countFires_zero_of_absent :
    ∀ (es : List AgentEvent) (bus : BusState) (gid : String),
      gid ∉ bus.waitGroups.map WaitGroup.id →
      countFires (runEmits bus es).2 gid = 0
        ∧ gid ∉ (runEmits bus es).1.waitGroups.map WaitGroup.id
  | [], _, _, h => ⟨rfl, h⟩
  | e :: es, bus, gid, h => by
    have habs : gid ∉ (emit bus e).1.waitGroups.map WaitGroup.id :=
      fun hm => h (emit_kept_subset bus e gid hm)
    have hstep : (emit bus e).2.fired.countP (fun p => p.1 == gid) = 0 := by
      refine List.countP_eq_zero.mpr fun q hq hbe => ?_
      have hq1 : q.1 = gid := by simpa using hbe
      exact h (emit_fired_subset bus e gid (hq1 ▸ List.mem_map_of_mem Prod.fst hq))
    rcases countFires_zero_of_absent es (emit bus e).1 gid habs with ⟨hz, hout⟩
    refine ⟨?_, hout⟩
    show countFires ((emit bus e).2 :: (runEmits (emit bus e).1 es).2) gid = 0
    rw [countFires_cons, hstep, hz]

lemma emit_fired_count_le_one (bus : BusState) (e : AgentEvent) (gid : String)
    (hnd : (bus.waitGroups.map WaitGroup.id).Nodup) :
    (emit bus e).2.fired.countP (fun p => p.1 == gid) ≤ 1 := by
  by_cases ht : e.type = AgentEventType.AGENT_COMPLETED ∨ e.type = AgentEventType.REPORT_SUBMITTED
  · rw [emit_fired_trigger bus e ht]
    have hnd2 : ((checkWaitGroups e.agentId bus.waitGroups).2.map Prod.fst).Nodup :=
      (checkWaitGroups_fired_sublist e.agentId bus.waitGroups).nodup hnd
    have hcnt : (checkWaitGroups e.agentId bus.waitGroups).2.countP (fun p => p.1 == gid)
        = ((checkWaitGroups e.agentId bus.waitGroups).2.map Prod.fst).count gid := by
      rw [List.count, List.countP_map]
      rfl
    rw [hcnt]
    exact List.nodup_iff_count_le_one.mp hnd2 gid
  · rw [emit_fired_nontrigger bus e ht]
    simp

lemma countFires_le_one :
    ∀ (es : List AgentEvent) (bus : BusState) (gid : String),
      (bus.waitGroups.map WaitGroup.id).Nodup →
      countFires (runEmits bus es).2 gid ≤ 1
  | [], _, _, _ => by simp [runEmits, countFires]
  | e :: es, bus, gid, hnd => by
    show countFires ((emit bus e).2 :: (runEmits (emit bus e).1 es).2) gid ≤ 1
    rw [countFires_cons]
    by_cases hf : gid ∈ (emit bus e).2.fired.map Prod.fst
    · have hrest : countFires (runEmits (emit bus e).1 es).2 gid = 0 :=
        (countFires_zero_of_absent es (emit bus e).1 gid
          (emit_fired_removed bus e hnd gid hf)).1
      have hstep := emit_fired_count_le_one bus e gid hnd
      omega
    · have hstep : (emit bus e).2.fired.countP (fun p => p.1 == gid) = 0 := by
        refine List.countP_eq_zero.mpr fun q hq hbe => ?_
        have hq1 : q.1 = gid := by simpa using hbe
        exact hf (hq1 ▸ List.mem_map_of_mem Prod.fst hq)
      have hrest := countFires_le_one es (emit bus e).1 gid (emit_wg_nodup bus e hnd)
      omega

lemma complete_of_threshold (g : WaitGroup) (hInv : WGInv g) (a : String)
    (ha : a ∈ g.expectedAgentIds)
    (hl : g.expectedAgentIds.length ≤ (addToSet g.completedAgentIds a).length) :
    ∀ x ∈ g.expectedAgentIds, x ∈ addToSet g.completedAgentIds a := by
  have hnodup : (addToSet g.completedAgentIds a).Nodup := addToSet_nodup hInv.1 a
  have hsub : addToSet g.completedAgentIds a ⊆ g.expectedAgentIds.dedup := by
    intro y hy
    rw [List.mem_dedup]
    rcases mem_addToSet.mp hy with hy | rfl
    · exact hInv.2.1 y hy
    · exact ha
  have hlen : g.expectedAgentIds.dedup.length ≤ (addToSet g.completedAgentIds a).length :=
    le_trans (List.Sublist.length_le (List.dedup_sublist _)) hl
  have hperm := (hnodup.subperm hsub).perm_of_length_le hlen
  intro x hx
  exact hperm.mem_iff.mpr (List.mem_dedup.mpr hx)

lemma addToSet_length_lt_of_dup (g : WaitGroup) (hInv : WGInv g) (a : String)
    (ha : a ∈ g.expectedAgentIds) (hd : ¬ g.expectedAgentIds.Nodup) :
    (addToSet g.completedAgentIds a).length < g.expectedAgentIds.length := by
  have hnodup : (addToSet g.completedAgentIds a).Nodup := addToSet_nodup hInv.1 a
  have hsub : addToSet g.completedAgentIds a ⊆ g.expectedAgentIds.dedup := by
    intro y hy
    rw [List.mem_dedup]
    rcases mem_addToSet.mp hy with hy | rfl
    · exact hInv.2.1 y hy
    · exact ha
  have h1 : (addToSet g.completedAgentIds a).length ≤ g.expectedAgentIds.dedup.length :=
    (hnodup.subperm hsub).length_le
  have h2 : g.expectedAgentIds.dedup.length < g.expectedAgentIds.length := by
    rcases Nat.lt_or_ge g.expectedAgentIds.dedup.length g.expectedAgentIds.length with h | h
    · exact h
    · exact absurd ((List.dedup_sublist _).eq_of_length_le h ▸ List.nodup_dedup _) hd
  exact lt_of_le_of_lt h1 h2

/-! Helper lemmas: subscriptions across `emit`. -/

lemma mem_matched_iff (bus : BusState) (e : AgentEvent) (s : EventSubscription) :
    s ∈ (emit bus e).2.matched ↔ s ∈ bus.subscriptions ∧ subMatches e s = true := by
  rw [emit_matched, List.mem_filter, (sortByPrioDesc_perm bus.subscriptions).mem_iff]

lemma emit_subs_subset (bus : BusState) (e : AgentEvent) :
    (emit bus e).1.subscriptions ⊆ bus.subscriptions := by
  rw [emit_subscriptions]
  exact (List.filter_sublist _).subset

lemma emit_subs_nodup (bus : BusState) (e : AgentEvent)
    (hnd : (bus.subscriptions.map EventSubscription.id).Nodup) :
    ((emit bus e).1.subscriptions.map EventSubscription.id).Nodup := by
  rw [emit_subscriptions]
  exact ((List.filter_sublist _).map _).nodup hnd

lemma count_id_le_one (subs : List EventSubscription) (sid : String)
    (hnd : (subs.map EventSubscription.id).Nodup) :
    subs.countP (fun s => s.id == sid) ≤ 1 := by
  have h : subs.countP (fun s => s.id == sid)
      = (subs.map EventSubscription.id).count sid := by
    rw [List.count, List.countP_map]
    rfl
  rw [h]
  exact List.nodup_iff_count_le_one.mp hnd sid

lemma matched_countP_le_one (bus : BusState) (e : AgentEvent) (sid : String)
    (hnd : (bus.subscriptions.map EventSubscription.id).Nodup) :
    (emit bus e).2.matched.countP (fun s => s.id == sid) ≤ 1 := by
  rw [emit_matched, List.countP_filter]
  calc (sortByPrioDesc bus.subscriptions).countP
          (fun a => (a.id == sid) && subMatches e a)
      ≤ (sortByPrioDesc bus.subscriptions).countP (fun a => a.id == sid) := by
        apply List.countP_mono_left
        intro a _ hb
        simp only [Bool.and_eq_true] at hb
        exact hb.1
    _ = bus.subscriptions.countP (fun a => a.id == sid) :=
        (sortByPrioDesc_perm bus.subscriptions).countP_eq _
    _ ≤ 1 := count_id_le_one bus.subscriptions sid hnd

lemma emit_matched_count_zero (bus : BusState) (e : AgentEvent) (sid : String)
    (habs : ∀ t ∈ bus.subscriptions, t.id ≠ sid) :
    (emit bus e).2.matched.countP (fun s => s.id == sid) = 0 := by
  refine List.countP_eq_zero.mpr fun s hs hbe => ?_
  have hmem : s ∈ bus.subscriptions := ((mem_matched_iff bus e s).mp hs).1
  exact habs s hmem (by simpa using hbe)

lemma emit_subs_absent (bus : BusState) (e : AgentEvent) (sid : String)
    (habs : ∀ t ∈ bus.subscriptions, t.id ≠ sid) :
    ∀ t ∈ (emit bus e).1.subscriptions, t.id ≠ sid := fun t ht =>
  habs t (emit_subs_subset bus e ht)

lemma countMatched_cons (o : EmitOut) (outs : List EmitOut) (sid : String) :
    countMatched (o :: outs) sid
      = o.matched.countP (fun s => s.id == sid) + countMatched outs sid := by
  simp [countMatched]

lemma countMatched_zero_of_absent :
    ∀ (es : List AgentEvent) (bus : BusState) (sid : String),
      (∀ t ∈ bus.subscriptions, t.id ≠ sid) →
      countMatched (runEmits bus es).2 sid = 0
  | [], _, _, _ => rfl
  | e :: es, bus, sid, habs => by
    show countMatched ((emit bus e).2 :: (runEmits (emit bus e).1 es).2) sid = 0
    rw [countMatched_cons, emit_matched_count_zero bus e sid habs,
      countMatched_zero_of_absent es (emit bus e).1 sid (emit_subs_absent bus e sid habs)]

lemma emit_oneShot_removed (bus : BusState) (e : AgentEvent) (s : EventSubscription)
    (hs : s ∈ (emit bus e).2.matched) (hone : s.oneShot = true) :
    ∀ t ∈ (emit bus e).1.subscriptions, t.id ≠ s.id := by
  intro t ht he
  rw [emit_subscriptions] at ht
  rcases List.mem_filter.mp ht with ⟨_, htpred⟩
  have hsid : s.id ∈ ((emit bus e).2.matched.filter fun t => t.oneShot).map (fun t => t.id) :=
    List.mem_map_of_mem _ (List.mem_filter.mpr ⟨hs, hone⟩)
  rw [he] at htpred
  simp only [Bool.not_eq_true'] at htpred
  exact absurd hsid (by simpa using htpred)

lemma emit_survives (bus : BusState) (e : AgentEvent) (s : EventSubscription)
    (hnd : (bus.subscriptions.map EventSubscription.id).Nodup)
    (hs : s ∈ bus.subscriptions) (hnm : s ∉ (emit bus e).2.matched) :
    s ∈ (emit bus e).1.subscriptions := by
  rw [emit_subscriptions]
  refine List.mem_filter.mpr ⟨hs, ?_⟩
  suffices h : s.id ∉ ((emit bus e).2.matched.filter fun t => t.oneShot).map (fun t => t.id) by
    simpa using h
  intro hmem
  rcases List.mem_map.mp hmem with ⟨t, htf, hid⟩
  rcases List.mem_filter.mp htf with ⟨htm, _⟩
  have htsubs : t ∈ bus.subscriptions := ((mem_matched_iff bus e t).mp htm).1
  have hts : t = s := List.inj_on_of_nodup_map hnd htsubs hs hid
  exact hnm (hts ▸ htm)

lemma countMatched_le_one :
    ∀ (es : List AgentEvent) (bus : BusState) (s : EventSubscription),
      (bus.subscriptions.map EventSubscription.id).Nodup →
      s ∈ bus.subscriptions → s.oneShot = true →
      countMatched (runEmits bus es).2 s.id ≤ 1
  | [], _, _, _, _, _ => by simp [runEmits, countMatched]
  | e :: es, bus, s, hnd, hs, hone => by
    show countMatched ((emit bus e).2 :: (runEmits (emit bus e).1 es).2) s.id ≤ 1
    rw [countMatched_cons]
    by_cases hm : s ∈ (emit bus e).2.matched
    · have hrest : countMatched (runEmits (emit bus e).1 es).2 s.id = 0 :=
        countMatched_zero_of_absent es (emit bus e).1 s.id
          (emit_oneShot_removed bus e s hm hone)
      have hstep := matched_countP_le_one bus e s.id hnd
      omega
    · have hstep : (emit bus e).2.matched.countP (fun t => t.id == s.id) = 0 := by
        refine List.countP_eq_zero.mpr fun t ht hbe => ?_
        have htid : t.id = s.id := by simpa using hbe
        have htsubs : t ∈ bus.subscriptions := ((mem_matched_iff bus e t).mp ht).1
        have hts : t = s := List.inj_on_of_nodup_map hnd htsubs hs htid
        exact hm (hts ▸ ht)
      rw [hstep]
      have hrest := countMatched_le_one es (emit bus e).1 s (emit_subs_nodup bus e hnd)
        (emit_survives bus e s hnd hs hm) hone
      omega

/-! Helper lemmas: `runBus` traces and wait groups that can never fire. -/

lemma runBus_cons (bus : BusState) (op : BusOp) (ops : List BusOp) :
    runBus bus (op :: ops)
      = ((runBus (stepBus bus op).1 ops).1,
         (stepBus bus op).2 :: (runBus (stepBus bus op).1 ops).2) := rfl

lemma stepBus_publish (bus : BusState) (e : AgentEvent) :
    stepBus bus (BusOp.publish e)
      = ((emit bus e).1, { emitted := some (emit bus e).2 }) := rfl

lemma stepBus_drain (bus : BusState) (a : String) :
    stepBus bus (BusOp.drain a)
      = ((drainPendingEvents bus a).1,
         { drained := some (a, (drainPendingEvents bus a).2) }) := rfl

lemma traceDrains_cons (o : StepOut) (outs : List StepOut) (a : String) :
    traceDrains (o :: outs) a
      = (match o.drained with
          | some r => if r.1 == a then r.2 else []
          | none => []) ++ traceDrains outs a := by
  simp [traceDrains]

lemma traceAppends_cons (o : StepOut) (outs : List StepOut) (a : String) :
    traceAppends (o :: outs) a
      = (match o.emitted with
          | some eo => emitAppends eo a
          | none => []) ++ traceAppends outs a := by
  simp [traceAppends]

lemma checkWaitGroups_data_congr (a : String) :
    ∀ (gs gs' : List WaitGroup), gs'.map WaitGroup.data = gs.map WaitGroup.data →
      ((checkWaitGroups a gs').1.map WaitGroup.data
          = (checkWaitGroups a gs).1.map WaitGroup.data)
      ∧ ((checkWaitGroups a gs').2.map Prod.fst
          = (checkWaitGroups a gs).2.map Prod.fst)
  | [], [], _ => ⟨rfl, rfl⟩
  | [], g' :: t', h => by simp at h
  | g :: t, [], h => by simp at h
  | g :: t, g' :: t', h => by
    rw [List.map_cons, List.map_cons] at h
    injection h with hd htl
    have hid : g'.id = g.id := congrArg WaitGroupData.id hd
    have hpar : g'.parentAgentId = g.parentAgentId :=
      congrArg WaitGroupData.parentAgentId hd
    have hexp : g'.expectedAgentIds = g.expectedAgentIds :=
      congrArg WaitGroupData.expectedAgentIds hd
    have hcomp : g'.completedAgentIds = g.completedAgentIds :=
      congrArg WaitGroupData.completedAgentIds hd
    have ih := checkWaitGroups_data_congr a t t' htl
    rcases bool_false_or_true (g.expectedAgentIds.contains a) with hc | hc
    · rw [checkWaitGroups_cons_skip a g t hc,
        checkWaitGroups_cons_skip a g' t' (by rw [hexp]; exact hc)]
      refine ⟨?_, ih.2⟩
      rw [List.map_cons, List.map_cons, ih.1, hd]
    · by_cases hl : (addToSet g.completedAgentIds a).length ≥ g.expectedAgentIds.length
      · rw [checkWaitGroups_cons_fire a g t hc hl,
          checkWaitGroups_cons_fire a g' t' (by rw [hexp]; exact hc)
            (by rw [hexp, hcomp]; exact hl)]
        refine ⟨ih.1, ?_⟩
        rw [List.map_cons, List.map_cons, ih.2]
        show g'.id :: _ = g.id :: _
        rw [hid]
      · rw [checkWaitGroups_cons_keep a g t hc hl,
          checkWaitGroups_cons_keep a g' t' (by rw [hexp]; exact hc)
            (by rw [hexp, hcomp]; exact hl)]
        refine ⟨?_, ih.2⟩
        rw [List.map_cons, List.map_cons, ih.1]
        show WaitGroup.data _ :: _ = WaitGroup.data _ :: _
        have hhead : WaitGroup.data { g' with completedAgentIds := addToSet g'.completedAgentIds a }
            = WaitGroup.data { g with completedAgentIds := addToSet g.completedAgentIds a } := by
          simp [WaitGroup.data, hid, hpar, hexp, hcomp]
        rw [hhead]

lemma runEmits_empty_expected :
    ∀ (es : List AgentEvent) (bus : BusState) (g : WaitGroup),
      (bus.waitGroups.map WaitGroup.id).Nodup → g ∈ bus.waitGroups →
      g.expectedAgentIds = [] →
      countFires (runEmits bus es).2 g.id = 0 ∧ g ∈ (runEmits bus es).1.waitGroups
  | [], _, g, _, hg, _ => ⟨rfl, hg⟩
  | e :: es, bus, g, hnd, hg, hemp => by
    have hstep0 : (emit bus e).2.fired.countP (fun p => p.1 == g.id) = 0 := by
      refine List.countP_eq_zero.mpr fun q hq hbe => ?_
      have hq1 : q.1 = g.id := by simpa using hbe
      have hmem : g.id ∈ (emit bus e).2.fired.map Prod.fst :=
        hq1 ▸ List.mem_map_of_mem Prod.fst hq
      by_cases ht : e.type = AgentEventType.AGENT_COMPLETED
          ∨ e.type = AgentEventType.REPORT_SUBMITTED
      · rw [emit_fired_trigger bus e ht] at hmem
        rcases (checkWaitGroups_fired_iff e.agentId bus.waitGroups hnd g hg).mp hmem
          with ⟨ha, _⟩
        rw [hemp] at ha
        exact absurd ha (List.not_mem_nil _)
      · rw [emit_fired_nontrigger bus e ht] at hmem
        exact absurd hmem (List.not_mem_nil _)
    have hg' : g ∈ (emit bus e).1.waitGroups := by
      by_cases ht : e.type = AgentEventType.AGENT_COMPLETED
          ∨ e.type = AgentEventType.REPORT_SUBMITTED
      · rw [emit_waitGroups_trigger bus e ht]
        have hnf : ¬(e.agentId ∈ g.expectedAgentIds
            ∧ g.expectedAgentIds.length
                ≤ (addToSet g.completedAgentIds e.agentId).length) := by
          rintro ⟨ha, _⟩
          rw [hemp] at ha
          exact absurd ha (List.not_mem_nil _)
        have hk := checkWaitGroups_kept_of_not_fire e.agentId bus.waitGroups g hg hnf
        rw [if_neg (by rw [hemp]; exact List.not_mem_nil _)] at hk
        exact hk
      · rw [emit_waitGroups_nontrigger bus e ht]
        exact hg
    have ih := runEmits_empty_expected es (emit bus e).1 g (emit_wg_nodup bus e hnd) hg' hemp
    refine ⟨?_, ih.2⟩
    show countFires ((emit bus e).2 :: (runEmits (emit bus e).1 es).2) g.id = 0
    rw [countFires_cons, hstep0, ih.1]

lemma runEmits_dup_expected :
    ∀ (es : List AgentEvent) (bus : BusState) (gid : String) (exp : List String),
      BusWGInv bus → ¬ exp.Nodup →
      (∀ g' ∈ bus.waitGroups, g'.id = gid → g'.expectedAgentIds = exp) →
      countFires (runEmits bus es).2 gid = 0
  | [], _, _, _, _, _, _ => rfl
  | e :: es, bus, gid, exp, hinv, hdup, hprop => by
    have hnd := hinv.1
    have hstep0 : (emit bus e).2.fired.countP (fun p => p.1 == gid) = 0 := by
      refine List.countP_eq_zero.mpr fun q hq hbe => ?_
      have hq1 : q.1 = gid := by simpa using hbe
      have hmem : gid ∈ (emit bus e).2.fired.map Prod.fst :=
        hq1 ▸ List.mem_map_of_mem Prod.fst hq
      by_cases ht : e.type = AgentEventType.AGENT_COMPLETED
          ∨ e.type = AgentEventType.REPORT_SUBMITTED
      · rw [emit_fired_trigger bus e ht] at hmem
        have hgs : gid ∈ bus.waitGroups.map WaitGroup.id :=
          (checkWaitGroups_fired_sublist e.agentId bus.waitGroups).subset hmem
        rcases List.mem_map.mp hgs with ⟨g', hg', hgid⟩
        have hexp := hprop g' hg' hgid
        have hiff := checkWaitGroups_fired_iff e.agentId bus.waitGroups hnd g' hg'
        rw [hgid] at hiff
        rcases hiff.mp hmem with ⟨ha, hge⟩
        have hlt := addToSet_length_lt_of_dup g' (hinv.2 g' hg') e.agentId ha
          (hexp.symm ▸ hdup)
        omega
      · rw [emit_fired_nontrigger bus e ht] at hmem
        exact absurd hmem (List.not_mem_nil _)
    have hprop' : ∀ g' ∈ (emit bus e).1.waitGroups, g'.id = gid →
        g'.expectedAgentIds = exp := by
      intro g' hg' hgid
      by_cases ht : e.type = AgentEventType.AGENT_COMPLETED
          ∨ e.type = AgentEventType.REPORT_SUBMITTED
      · rw [emit_waitGroups_trigger bus e ht] at hg'
        rcases checkWaitGroups_kept_cases e.agentId bus.waitGroups g' hg'
          with ⟨g0, hg0, rfl | ⟨_, rfl, _⟩⟩
        · exact hprop _ hg0 hgid
        · exact hprop g0 hg0 hgid
      · rw [emit_waitGroups_nontrigger bus e ht] at hg'
        exact hprop g' hg' hgid
    have ihz := runEmits_dup_expected es (emit bus e).1 gid exp
      (emit_businv bus e hinv) hdup hprop'
    show countFires ((emit bus e).2 :: (runEmits (emit bus e).1 es).2) gid = 0
    rw [countFires_cons, hstep0, ihz]

end EventBus

/-- C3. Wait groups fire exactly once: across any publish-only trace each
group id fires at most once; a firing happens only when the updated
completed set covers every expected agent, and the group is removed from
the map by that same publish; a completion signal for an agent already in
the completed set leaves the group in the map unchanged (so the completed
set's size is unchanged) and does not fire it. -/
theorem c3_waitGroup_exactly_once :
    (∀ (bus : BusState) (events : List AgentEvent) (gid : String),
        (bus.waitGroups.map WaitGroup.id).Nodup →
        EventBus.countFires (EventBus.runEmits bus events).2 gid ≤ 1)
    ∧ (∀ (bus : BusState) (e : AgentEvent) (g : WaitGroup),
        EventBus.BusWGInv bus → g ∈ bus.waitGroups →
        g.id ∈ (EventBus.emit bus e).2.fired.map Prod.fst →
        (∀ x ∈ g.expectedAgentIds,
            x ∈ EventBus.addToSet g.completedAgentIds e.agentId)
          ∧ g.id ∉ (EventBus.emit bus e).1.waitGroups.map WaitGroup.id)
    ∧ (∀ (bus : BusState) (e : AgentEvent) (g : WaitGroup),
        EventBus.BusWGInv bus → g ∈ bus.waitGroups →
        e.agentId ∈ g.completedAgentIds →
        g ∈ (EventBus.emit bus e).1.waitGroups
          ∧ g.id ∉ (EventBus.emit bus e).2.fired.map Prod.fst) := by
  refine ⟨?_, ?_, ?_⟩
  · intro bus events gid hnd
    exact EventBus.countFires_le_one events bus gid hnd
  · intro bus e g hinv hg hf
    rcases hinv with ⟨hnd, hwg⟩
    by_cases ht : e.type = AgentEventType.AGENT_COMPLETED
        ∨ e.type = AgentEventType.REPORT_SUBMITTED
    · have hf' := hf
      rw [EventBus.emit_fired_trigger bus e ht] at hf'
      rcases (EventBus.checkWaitGroups_fired_iff e.agentId bus.waitGroups hnd g hg).mp hf'
        with ⟨ha, hl⟩
      exact ⟨EventBus.complete_of_threshold g (hwg g hg) e.agentId ha hl,
        EventBus.emit_fired_removed bus e hnd g.id hf⟩
    · rw [EventBus.emit_fired_nontrigger bus e ht] at hf
      exact absurd hf (List.not_mem_nil _)
  · intro bus e g hinv hg hcomp
    rcases hinv with ⟨hnd, hwg⟩
    have hwgg := hwg g hg
    have ha : e.agentId ∈ g.expectedAgentIds := hwgg.2.1 e.agentId hcomp
    have hadd : EventBus.addToSet g.completedAgentIds e.agentId = g.completedAgentIds :=
      EventBus.addToSet_of_mem hcomp
    have hlt : g.completedAgentIds.length < g.expectedAgentIds.length := by
      rcases hwgg.2.2 with hemp | hlt
      · rw [hemp] at hcomp
        exact absurd hcomp (List.not_mem_nil _)
      · exact hlt
    have hnf : ¬(e.agentId ∈ g.expectedAgentIds
        ∧ g.expectedAgentIds.length
            ≤ (EventBus.addToSet g.completedAgentIds e.agentId).length) := by
      rintro ⟨_, hge⟩
      rw [hadd] at hge
      omega
    by_cases ht : e.type = AgentEventType.AGENT_COMPLETED
        ∨ e.type = AgentEventType.REPORT_SUBMITTED
    · constructor
      · rw [EventBus.emit_waitGroups_trigger bus e ht]
        have hk := EventBus.checkWaitGroups_kept_of_not_fire e.agentId
          bus.waitGroups g hg hnf
        rw [if_pos ha, hadd] at hk
        exact hk
      · rw [EventBus.emit_fired_trigger bus e ht]
        intro hmem
        exact hnf ((EventBus.checkWaitGroups_fired_iff e.agentId
          bus.waitGroups hnd g hg).mp hmem)
    · constructor
      · rw [EventBus.emit_waitGroups_nontrigger bus e ht]
        exact hg
      · rw [EventBus.emit_fired_nontrigger bus e ht]
        exact List.not_mem_nil _

/-- Witness for `c3_waitGroup_exactly_once`: a two-member group on the
signal trace a, a, b; a one-member group at its firing event; and a
half-completed group re-signaled by its already-counted member. -/
theorem c3_waitGroup_exactly_once_witness :
    ((c3Bus.waitGroups.map WaitGroup.id).Nodup
      ∧ EventBus.countFires (EventBus.runEmits c3Bus c3Events).2 "g" ≤ 1)
    ∧ (EventBus.BusWGInv c3BusOne ∧ c3GrpOne ∈ c3BusOne.waitGroups
        ∧ c3GrpOne.id ∈ (EventBus.emit c3BusOne evA).2.fired.map Prod.fst
        ∧ ((∀ x ∈ c3GrpOne.expectedAgentIds,
              x ∈ EventBus.addToSet c3GrpOne.completedAgentIds evA.agentId)
            ∧ c3GrpOne.id ∉ (EventBus.emit c3BusOne evA).1.waitGroups.map WaitGroup.id))
    ∧ (EventBus.BusWGInv c3BusHalf ∧ c3GrpHalf ∈ c3BusHalf.waitGroups
        ∧ evA.agentId ∈ c3GrpHalf.completedAgentIds
        ∧ (c3GrpHalf ∈ (EventBus.emit c3BusHalf evA).1.waitGroups
            ∧ c3GrpHalf.id ∉ (EventBus.emit c3BusHalf evA).2.fired.map Prod.fst)) :=
  ⟨⟨by decide, c3_waitGroup_exactly_once.1 c3Bus c3Events "g" (by decide)⟩,
    ⟨by decide, by decide, by decide,
      c3_waitGroup_exactly_once.2.1 c3BusOne evA c3GrpOne (by decide) (by decide) (by decide)⟩,
    ⟨by decide, by decide, by decide,
      c3_waitGroup_exactly_once.2.2 c3BusHalf evA c3GrpHalf (by decide) (by decide) (by decide)⟩⟩

/-- C4. One-shot subscriptions: across any publish-only trace a one-shot
subscription is matched (delivered to) at most once; and in the publish
that matches it, the event is still queued for its owner while the
subscription is gone from the subscription map afterwards. -/
theorem c4_oneShot_at_most_once :
    (∀ (bus : BusState) (events : List AgentEvent) (s : EventSubscription),
        (bus.subscriptions.map EventSubscription.id).Nodup →
        s ∈ bus.subscriptions → s.oneShot = true →
        EventBus.countMatched (EventBus.runEmits bus events).2 s.id ≤ 1)
    ∧ (∀ (bus : BusState) (e : AgentEvent) (s : EventSubscription),
        s ∈ (EventBus.emit bus e).2.matched → s.oneShot = true →
        e ∈ (EventBus.emit bus e).1.pendingEvents s.agentId
          ∧ (∀ t ∈ (EventBus.emit bus e).1.subscriptions, t.id ≠ s.id)) := by
  refine ⟨?_, ?_⟩
  · intro bus events s hnd hs hone
    exact EventBus.countMatched_le_one events bus s hnd hs hone
  · intro bus e s hm hone
    refine ⟨?_, EventBus.emit_oneShot_removed bus e s hm hone⟩
    rw [EventBus.emit_pending]
    refine List.mem_append.mpr (Or.inr ?_)
    unfold EventBus.emitAppends
    have hf : s ∈ (EventBus.emit bus e).2.matched.filter
        (fun t => t.agentId == s.agentId) :=
      List.mem_filter.mpr ⟨hm, by simp⟩
    have hmem := List.mem_map_of_mem
      (fun _ => (EventBus.emit bus e).2.event) hf
    simpa [EventBus.emit_event] using hmem

/-- Witness for `c4_oneShot_at_most_once`: the one-shot subscription on a
trace that publishes its matching event twice. -/
theorem c4_oneShot_at_most_once_witness :
    ((c4Bus.subscriptions.map EventSubscription.id).Nodup
      ∧ c4Sub ∈ c4Bus.subscriptions ∧ c4Sub.oneShot = true
      ∧ EventBus.countMatched (EventBus.runEmits c4Bus c4Events).2 c4Sub.id ≤ 1)
    ∧ (c4Sub ∈ (EventBus.emit c4Bus c4Ev).2.matched
      ∧ (c4Ev ∈ (EventBus.emit c4Bus c4Ev).1.pendingEvents c4Sub.agentId
          ∧ ∀ t ∈ (EventBus.emit c4Bus c4Ev).1.subscriptions, t.id ≠ c4Sub.id)) :=
  ⟨⟨by decide, by decide, by decide,
      c4_oneShot_at_most_once.1 c4Bus c4Events c4Sub (by decide) (by decide) (by decide)⟩,
    ⟨by decide,
      c4_oneShot_at_most_once.2 c4Bus c4Ev c4Sub (by decide) (by decide)⟩⟩

/-- C6. Buffered subscriptions are processed in priority-descending order,
stable with respect to registration order among equal priorities; in the
concrete 10/5/0 scenario (registered in ascending order) the processing
order is s10, s5, s0 and the owner's drained queue holds the event three
times. -/
theorem c6_priority_descending_stable :
    (∀ (bus : BusState) (e : AgentEvent),
        (EventBus.emit bus e).2.matched.Pairwise (fun a b => b.priority ≤ a.priority))
    ∧ (∀ (bus : BusState) (e : AgentEvent) (p : Int),
        (EventBus.emit bus e).2.matched.filter (fun s => s.priority == p)
          = (bus.subscriptions.filter (EventBus.subMatches e)).filter
              (fun s => s.priority == p))
    ∧ ((EventBus.emit c6Bus c6Ev).2.matched.map (fun s => s.id) = ["s10", "s5", "s0"]
        ∧ (EventBus.drainPendingEvents (EventBus.emit c6Bus c6Ev).1 "obs").2
            = [c6Ev, c6Ev, c6Ev]) := by
  refine ⟨?_, ?_, by decide, by decide⟩
  · intro bus e
    rw [EventBus.emit_matched]
    exact (EventBus.sortByPrioDesc_pairwise bus.subscriptions).filter _
  · intro bus e p
    rw [EventBus.emit_matched, List.filter_comm, EventBus.filter_prio_sort,
      List.filter_comm]

/-- C7. Contained handler errors: every direct handler runs (one outcome
per registered handler, each the handler's own); the delivery outputs of a
publish do not depend on the handlers at all, so a throwing handler
prevents nothing; and wait-group bookkeeping and firing do not depend on
the groups' callbacks, so a throwing `onComplete` still leaves its group
deleted and every other group processed. -/
theorem c7_handler_errors_contained :
    (∀ (bus : BusState) (e : AgentEvent),
        (EventBus.emit bus e).2.handlerResults.length = bus.handlers.length
        ∧ ∀ p ∈ bus.handlers, (p.1, p.2 e) ∈ (EventBus.emit bus e).2.handlerResults)
    ∧ (∀ (bus : BusState) (e : AgentEvent)
          (hs : List (String × (AgentEvent → CbOutcome))),
        (EventBus.emit { bus with handlers := hs } e).1.subscriptions
            = (EventBus.emit bus e).1.subscriptions
        ∧ (∀ a, (EventBus.emit { bus with handlers := hs } e).1.pendingEvents a
            = (EventBus.emit bus e).1.pendingEvents a)
        ∧ (EventBus.emit { bus with handlers := hs } e).1.waitGroups
            = (EventBus.emit bus e).1.waitGroups
        ∧ (EventBus.emit { bus with handlers := hs } e).2.matched
            = (EventBus.emit bus e).2.matched
        ∧ (EventBus.emit { bus with handlers := hs } e).2.fired
            = (EventBus.emit bus e).2.fired)
    ∧ (∀ (bus : BusState) (e : AgentEvent) (gs : List WaitGroup),
        gs.map WaitGroup.data = bus.waitGroups.map WaitGroup.data →
        ((EventBus.emit { bus with waitGroups := gs } e).1.waitGroups.map WaitGroup.data
            = (EventBus.emit bus e).1.waitGroups.map WaitGroup.data)
        ∧ ((EventBus.emit { bus with waitGroups := gs } e).2.fired.map Prod.fst
            = (EventBus.emit bus e).2.fired.map Prod.fst)) := by
  refine ⟨?_, ?_, ?_⟩
  · intro bus e
    constructor
    · rw [EventBus.emit_handlerResults, List.length_map]
    · intro p hp
      rw [EventBus.emit_handlerResults]
      exact List.mem_map_of_mem _ hp
  · intro bus e hs
    exact ⟨rfl, fun a => rfl, rfl, rfl, rfl⟩
  · intro bus e gs hdata
    by_cases ht : e.type = AgentEventType.AGENT_COMPLETED
        ∨ e.type = AgentEventType.REPORT_SUBMITTED
    · have hcongr := EventBus.checkWaitGroups_data_congr e.agentId bus.waitGroups gs hdata
      constructor
      · rw [EventBus.emit_waitGroups_trigger _ e ht, EventBus.emit_waitGroups_trigger _ e ht]
        exact hcongr.1
      · rw [EventBus.emit_fired_trigger _ e ht, EventBus.emit_fired_trigger _ e ht]
        exact hcongr.2
    · constructor
      · rw [EventBus.emit_waitGroups_nontrigger _ e ht,
          EventBus.emit_waitGroups_nontrigger _ e ht]
        exact hdata
      · rw [EventBus.emit_fired_nontrigger _ e ht, EventBus.emit_fired_nontrigger _ e ht]

/-- Witness for `c7_handler_errors_contained`: replacing a group's normal
callback by a throwing one changes neither the surviving groups' data nor
which groups fire. -/
theorem c7_handler_errors_contained_witness :
    ([c7GrpThrew].map WaitGroup.data = c7Bus.waitGroups.map WaitGroup.data)
    ∧ (((EventBus.emit { c7Bus with waitGroups := [c7GrpThrew] } evA).1.waitGroups.map
            WaitGroup.data
          = (EventBus.emit c7Bus evA).1.waitGroups.map WaitGroup.data)
        ∧ ((EventBus.emit { c7Bus with waitGroups := [c7GrpThrew] } evA).2.fired.map Prod.fst
          = (EventBus.emit c7Bus evA).2.fired.map Prod.fst)) :=
  ⟨by decide, c7_handler_errors_contained.2.2 c7Bus evA [c7GrpThrew] (by decide)⟩

/-- C8. Drain semantics: across any operation trace, the events drained for
an agent followed by what remains queued are exactly the initial queue
followed by everything emitted to that agent, in order — so each drain
returns the queue in order and clears it, and no event is ever returned by
two drains; immediately re-draining returns the empty list. -/
theorem c8_drainPendingEvents :
    (∀ (bus : BusState) (ops : List EventBus.BusOp) (a : String),
        EventBus.traceDrains (EventBus.runBus bus ops).2 a
            ++ (EventBus.runBus bus ops).1.pendingEvents a
          = bus.pendingEvents a ++ EventBus.traceAppends (EventBus.runBus bus ops).2 a)
    ∧ (∀ (bus : BusState) (a : String),
        (EventBus.drainPendingEvents (EventBus.drainPendingEvents bus a).1 a).2 = []) := by
  constructor
  · intro bus ops a
    induction ops generalizing bus with
    | nil => simp [EventBus.runBus, EventBus.traceDrains, EventBus.traceAppends]
    | cons op ops ih =>
      rw [EventBus.runBus_cons]
      cases op with
      | publish e =>
        rw [EventBus.stepBus_publish, EventBus.traceDrains_cons, EventBus.traceAppends_cons]
        show ([] ++ _) ++ _ = _ ++ (EventBus.emitAppends (EventBus.emit bus e).2 a ++ _)
        rw [List.nil_append, ih, EventBus.emit_pending, List.append_assoc]
      | subscribeOp s =>
        rw [EventBus.traceDrains_cons, EventBus.traceAppends_cons]
        show ([] ++ _) ++ _ = _ ++ ([] ++ _)
        rw [List.nil_append, List.nil_append]
        exact ih (EventBus.subscribe bus s)
      | unsubscribeOp i =>
        rw [EventBus.traceDrains_cons, EventBus.traceAppends_cons]
        show ([] ++ _) ++ _ = _ ++ ([] ++ _)
        rw [List.nil_append, List.nil_append]
        exact ih (EventBus.unsubscribe bus i).1
      | drain b =>
        rw [EventBus.stepBus_drain, EventBus.traceDrains_cons, EventBus.traceAppends_cons]
        have ih' := ih (EventBus.drainPendingEvents bus b).1
        by_cases hba : b = a
        · subst hba
          show ((if (b == b) = true then bus.pendingEvents b else []) ++ _) ++ _
              = _ ++ ([] ++ _)
          rw [if_pos (by simp)]
          rw [List.append_assoc, ih']
          show bus.pendingEvents b
              ++ ((if (b == b) = true then [] else bus.pendingEvents b) ++ _) = _
          rw [if_pos (by simp), List.nil_append]
        · show ((if (b == a) = true then bus.pendingEvents b else []) ++ _) ++ _
              = _ ++ ([] ++ _)
          rw [if_neg (by simpa using hba), List.nil_append, List.nil_append, ih']
          show (if (a == b) = true then [] else bus.pendingEvents a) ++ _ = _
          rw [if_neg (by simpa using fun h => hba h.symm)]
  · intro bus a
    simp [EventBus.drainPendingEvents]

/-- C10. Firing threshold: a group fires exactly when the publish is a
completion-type event from an expected agent and the updated completed-set
size reaches the expected array's length; a group created with an empty
expected array never fires and survives any publish-only trace; a group
whose expected array repeats an agent id can never fire. -/
theorem c10_waitGroup_threshold :
    (∀ (bus : BusState) (e : AgentEvent) (g : WaitGroup),
        (bus.waitGroups.map WaitGroup.id).Nodup → g ∈ bus.waitGroups →
        (g.id ∈ (EventBus.emit bus e).2.fired.map Prod.fst
          ↔ (e.type = AgentEventType.AGENT_COMPLETED
              ∨ e.type = AgentEventType.REPORT_SUBMITTED)
            ∧ e.agentId ∈ g.expectedAgentIds
            ∧ g.expectedAgentIds.length
                ≤ (EventBus.addToSet g.completedAgentIds e.agentId).length))
    ∧ (∀ (bus : BusState) (events : List AgentEvent) (g : WaitGroup),
        (bus.waitGroups.map WaitGroup.id).Nodup → g ∈ bus.waitGroups →
        g.expectedAgentIds = [] →
        EventBus.countFires (EventBus.runEmits bus events).2 g.id = 0
          ∧ g ∈ (EventBus.runEmits bus events).1.waitGroups)
    ∧ (∀ (bus : BusState) (events : List AgentEvent) (g : WaitGroup),
        EventBus.BusWGInv bus → g ∈ bus.waitGroups →
        ¬ g.expectedAgentIds.Nodup →
        EventBus.countFires (EventBus.runEmits bus events).2 g.id = 0) := by
  refine ⟨?_, ?_, ?_⟩
  · intro bus e g hnd hg
    by_cases ht : e.type = AgentEventType.AGENT_COMPLETED
        ∨ e.type = AgentEventType.REPORT_SUBMITTED
    · rw [EventBus.emit_fired_trigger bus e ht]
      rw [EventBus.checkWaitGroups_fired_iff e.agentId bus.waitGroups hnd g hg]
      constructor
      · rintro ⟨ha, hl⟩
        exact ⟨ht, ha, hl⟩
      · rintro ⟨_, ha, hl⟩
        exact ⟨ha, hl⟩
    · rw [EventBus.emit_fired_nontrigger bus e ht]
      constructor
      · intro h
        exact absurd h (List.not_mem_nil _)
      · rintro ⟨h, _⟩
        exact absurd h ht
  · intro bus events g hnd hg hemp
    exact EventBus.runEmits_empty_expected events bus g hnd hg hemp
  · intro bus events g hinv hg hdup
    refine EventBus.runEmits_dup_expected events bus g.id g.expectedAgentIds hinv hdup ?_
    intro g' hg' hgid
    rw [List.inj_on_of_nodup_map hinv.1 hg' hg hgid]

/-- Witness for `c10_waitGroup_threshold`: the firing characterization at
the duplicated-expected group, the empty-expected group surviving the
whole signal trace, and the duplicated-expected group never firing. -/
theorem c10_waitGroup_threshold_witness :
    ((c10Bus.waitGroups.map WaitGroup.id).Nodup ∧ c10GrpDup ∈ c10Bus.waitGroups
      ∧ (c10GrpDup.id ∈ (EventBus.emit c10Bus evA).2.fired.map Prod.fst
          ↔ (evA.type = AgentEventType.AGENT_COMPLETED
              ∨ evA.type = AgentEventType.REPORT_SUBMITTED)
            ∧ evA.agentId ∈ c10GrpDup.expectedAgentIds
            ∧ c10GrpDup.expectedAgentIds.length
                ≤ (EventBus.addToSet c10GrpDup.completedAgentIds evA.agentId).length))
    ∧ (c10GrpEmpty.expectedAgentIds = []
        ∧ (EventBus.countFires (EventBus.runEmits c10Bus c10Events).2 c10GrpEmpty.id = 0
            ∧ c10GrpEmpty ∈ (EventBus.runEmits c10Bus c10Events).1.waitGroups))
    ∧ (¬ c10GrpDup.expectedAgentIds.Nodup
        ∧ EventBus.countFires (EventBus.runEmits c10Bus c10Events).2 c10GrpDup.id = 0) :=
  ⟨⟨by decide, by decide,
      c10_waitGroup_threshold.1 c10Bus evA c10GrpDup (by decide) (by decide)⟩,
    ⟨by decide,
      c10_waitGroup_threshold.2.1 c10Bus c10Events c10GrpEmpty (by decide) (by decide)
        (by decide)⟩,
    ⟨by decide,
      c10_waitGroup_threshold.2.2 c10Bus c10Events c10GrpDup (by decide) (by decide)
        (by decide)⟩⟩

namespace HttpSessionStore

/-! Helper lemmas: the session pipe. -/

lemma runPipe_cons_fst (st : PipeState) (op : PipeOp) (ops : List PipeOp) :
    (runPipe st (op :: ops)).1 = (runPipe (stepPipe st op).1 ops).1 := rfl

lemma runPipe_cons_snd (st : PipeState) (op : PipeOp) (ops : List PipeOp) :
    (runPipe st (op :: ops)).2
      = (stepPipe st op).2 ++ (runPipe (stepPipe st op).1 ops).2 := rfl

lemma framesFor_append (xs ys : List SseWrite) (s : String) :
    framesFor (xs ++ ys) s = framesFor xs s ++ framesFor ys s := by
  simp [framesFor]

lemma push_attached_eq (st : PipeState) (n : SessionNotification) (c : Controller)
    (hctl : st.sseControllers n.sessionId = some c) (hca : c.alive = true) :
    pushNotification st n = (st, [⟨n.sessionId, c.cid, frameOfNotif n⟩]) := by
  simp [pushNotification, hctl, writeSse, hca, frameOfNotif]

lemma push_detached_eq (st : PipeState) (n : SessionNotification)
    (hctl : st.sseControllers n.sessionId = none) :
    pushNotification st n
      = ({ st with pendingNotifications := fun x =>
            if x == n.sessionId then st.pendingNotifications x ++ [n]
            else st.pendingNotifications x }, []) := by
  simp [pushNotification, hctl]

lemma push_dead_eq (st : PipeState) (n : SessionNotification) (c : Controller)
    (hctl : st.sseControllers n.sessionId = some c) (hca : c.alive = false) :
    pushNotification st n = (st, []) := by
  simp [pushNotification, hctl, writeSse, hca]

lemma filterMap_write_alive (c : Controller) (hca : c.alive = true) (s0 : String) :
    ∀ (l : List SessionNotification),
      (l.filterMap fun n => (writeSse c (envelope (notifJson n))).map
          fun f => (⟨s0, c.cid, f⟩ : SseWrite))
        = l.map fun n => ⟨s0, c.cid, frameOfNotif n⟩
  | [] => rfl
  | n :: l => by
    rw [List.filterMap_cons, List.map_cons, ← filterMap_write_alive c hca s0 l]
    simp [writeSse, hca, frameOfNotif]

lemma flush_eq_of_controller (st : PipeState) (s0 : String) (c : Controller)
    (hctl : st.sseControllers s0 = some c) (hca : c.alive = true) :
    flushPending st s0
      = ({ st with pendingNotifications := fun x =>
            if x == s0 then [] else st.pendingNotifications x },
         (st.pendingNotifications s0).map fun n => ⟨s0, c.cid, frameOfNotif n⟩) := by
  unfold flushPending
  rw [hctl]
  dsimp only
  by_cases hb : st.pendingNotifications s0 = []
  · rw [if_pos (by rw [hb]; rfl)]
    have hfun : (fun x => if x == s0 then ([] : List SessionNotification)
        else st.pendingNotifications x) = st.pendingNotifications := by
      funext x
      by_cases hx : x = s0
      · rw [if_pos (by simp [hx]), hx, hb]
      · rw [if_neg (by simpa using hx)]
    rw [hb]
    show (st, []) = _
    rw [hfun]
    rfl
  · rw [if_neg (by simpa [List.isEmpty_iff] using hb)]
    rw [filterMap_write_alive c hca s0]

lemma attach_alive_eq (st : PipeState) (s0 : String) (c : Controller)
    (hca : c.alive = true) :
    attachSse st s0 c
      = ({ sseControllers := fun x => if x == s0 then some c else st.sseControllers x,
           pendingNotifications := fun x =>
             if x == s0 then [] else st.pendingNotifications x },
         (st.pendingNotifications s0).map fun n => ⟨s0, c.cid, frameOfNotif n⟩) := by
  unfold attachSse
  rw [flush_eq_of_controller _ s0 c (by simp) hca]

/-- C5 delivery invariant: over a push/attach/detach trace with live
transports, the frames delivered for a session followed by the frames its
final buffer still owes are exactly the frames of its pushes, in order. -/
lemma delivery_invariant :
    ∀ (ops : List PipeOp) (st : PipeState) (s : String),
      LiveOps ops → LiveState st s →
      framesFor (runPipe st ops).2 s
          ++ ((runPipe st ops).1.pendingNotifications s).map frameOfNotif
        = (st.pendingNotifications s).map frameOfNotif
          ++ (pushesFor ops s).map frameOfNotif
  | [], st, s, _, _ => by
    simp [runPipe, framesFor, pushesFor]
  | op :: ops, st, s, hops, hst => by
    have hop := hops op (List.mem_cons_self _ _)
    have hops' : LiveOps ops := fun o ho => hops o (List.mem_cons_of_mem _ ho)
    rw [runPipe_cons_snd, runPipe_cons_fst, framesFor_append, List.append_assoc]
    cases op with
    | push n =>
      have hpush : stepPipe st (PipeOp.push n) = pushNotification st n := rfl
      by_cases hsn : n.sessionId = s
      · cases hctl : st.sseControllers n.sessionId with
        | some c =>
          have hc := hst c (by rw [← hsn]; exact hctl)
          rw [hpush, push_attached_eq st n c hctl hc.1,
            delivery_invariant ops st s hops' hst]
          have hf : framesFor [(⟨n.sessionId, c.cid, frameOfNotif n⟩ : SseWrite)] s
              = [frameOfNotif n] := by
            simp [framesFor, hsn]
          have hp : pushesFor (PipeOp.push n :: ops) s = n :: pushesFor ops s := by
            simp [pushesFor, hsn]
          rw [hf, hp, hc.2]
          simp
        | none =>
          rw [hpush, push_detached_eq st n hctl]
          have hs' : ¬(s = n.sessionId) → False := fun h => h hsn.symm
          have hst' : LiveState
              ({ st with pendingNotifications := fun x =>
                  if x == n.sessionId then st.pendingNotifications x ++ [n]
                  else st.pendingNotifications x }) s := by
            intro c' hc2
            have : st.sseControllers s = some c' := hc2
            rw [hsn] at hctl
            rw [hctl] at this
            cases this
          rw [delivery_invariant ops _ s hops' hst']
          have hb : (if (s == n.sessionId) = true
              then st.pendingNotifications s ++ [n] else st.pendingNotifications s)
              = st.pendingNotifications s ++ [n] := by
            rw [if_pos (by simp [hsn.symm])]
          have hp : pushesFor (PipeOp.push n :: ops) s = n :: pushesFor ops s := by
            simp [pushesFor, hsn]
          show framesFor [] s ++ _ = _
          rw [hp]
          show ([] : List String) ++ _ = _
          rw [List.nil_append]
          show (if (s == n.sessionId) = true
              then st.pendingNotifications s ++ [n]
              else st.pendingNotifications s).map frameOfNotif ++ _ = _
          rw [hb]
          simp
      · cases hctl : st.sseControllers n.sessionId with
        | some c =>
          have hp : pushesFor (PipeOp.push n :: ops) s = pushesFor ops s := by
            simp [pushesFor, hsn]
          cases hca : c.alive with
          | true =>
            rw [hpush, push_attached_eq st n c hctl hca,
              delivery_invariant ops st s hops' hst, hp]
            have hf : framesFor [(⟨n.sessionId, c.cid, frameOfNotif n⟩ : SseWrite)] s
                = [] := by
              simp [framesFor, hsn]
            rw [hf, List.nil_append]
          | false =>
            rw [hpush, push_dead_eq st n c hctl hca,
              delivery_invariant ops st s hops' hst, hp]
            show framesFor [] s ++ _ = _
            rw [show framesFor [] s = [] from rfl, List.nil_append]
        | none =>
          rw [hpush, push_detached_eq st n hctl]
          have hnotv : ¬((s == n.sessionId) = true) := by
            simp
            exact fun h => hsn h.symm
          have hst' : LiveState
              ({ st with pendingNotifications := fun x =>
                  if x == n.sessionId then st.pendingNotifications x ++ [n]
                  else st.pendingNotifications x }) s := by
            intro c' hc2
            refine ⟨(hst c' hc2).1, ?_⟩
            show (if (s == n.sessionId) = true
                then st.pendingNotifications s ++ [n]
                else st.pendingNotifications s) = []
            rw [if_neg hnotv]
            exact (hst c' hc2).2
          rw [delivery_invariant ops _ s hops' hst']
          have hp : pushesFor (PipeOp.push n :: ops) s = pushesFor ops s := by
            simp [pushesFor, hsn]
          show framesFor [] s ++ _ = _
          rw [show framesFor [] s = [] from rfl, List.nil_append, hp]
          show (if (s == n.sessionId) = true
              then st.pendingNotifications s ++ [n]
              else st.pendingNotifications s).map frameOfNotif ++ _ = _
          rw [if_neg hnotv]
    | attach s0 c =>
      have hca : c.alive = true := hop
      have hatt : stepPipe st (PipeOp.attach s0 c) = attachSse st s0 c := rfl
      rw [hatt, attach_alive_eq st s0 c hca]
      have hp : pushesFor (PipeOp.attach s0 c :: ops) s = pushesFor ops s := by
        simp [pushesFor]
      by_cases hss : s0 = s
      · subst hss
        have hst' : LiveState
            ({ sseControllers := fun x => if x == s0 then some c else st.sseControllers x,
               pendingNotifications := fun x =>
                 if x == s0 then [] else st.pendingNotifications x } : PipeState) s0 := by
          intro c' hc2
          have hc2' : some c = some c' := by
            have h0 : (if (s0 == s0) = true then some c else st.sseControllers s0)
                = some c' := hc2
            rw [if_pos (by simp)] at h0
            exact h0
          cases hc2'
          refine ⟨hca, ?_⟩
          show (if (s0 == s0) = true then [] else st.pendingNotifications s0) = []
          rw [if_pos (by simp)]
        rw [delivery_invariant ops _ s0 hops' hst', hp]
        have hf : framesFor ((st.pendingNotifications s0).map
              fun n => (⟨s0, c.cid, frameOfNotif n⟩ : SseWrite)) s0
            = (st.pendingNotifications s0).map frameOfNotif := by
          simp [framesFor, List.filter_map, List.map_map, Function.comp_def]
        rw [hf]
        show _ ++ ((if (s0 == s0) = true then []
            else st.pendingNotifications s0).map frameOfNotif ++ _) = _
        rw [if_pos (by simp)]
        simp
      · have hnotv : ¬((s == s0) = true) := by
          simp
          exact fun h => hss h.symm
        have hst' : LiveState
            ({ sseControllers := fun x => if x == s0 then some c else st.sseControllers x,
               pendingNotifications := fun x =>
                 if x == s0 then [] else st.pendingNotifications x } : PipeState) s := by
          intro c' hc2
          have hc2' : st.sseControllers s = some c' := by
            have h0 : (if (s == s0) = true then some c else st.sseControllers s)
                = some c' := hc2
            rw [if_neg hnotv] at h0
            exact h0
          refine ⟨(hst c' hc2').1, ?_⟩
          show (if (s == s0) = true then [] else st.pendingNotifications s) = []
          rw [if_neg hnotv]
          exact (hst c' hc2').2
        rw [delivery_invariant ops _ s hops' hst', hp]
        have hf : framesFor ((st.pendingNotifications s0).map
              fun n => (⟨s0, c.cid, frameOfNotif n⟩ : SseWrite)) s = [] := by
          simp [framesFor, List.filter_map, Function.comp]
          intro x hx
          exact fun h => hss h
        rw [hf, List.nil_append]
        show (if (s == s0) = true then []
            else st.pendingNotifications s).map frameOfNotif ++ _ = _
        rw [if_neg hnotv]
    | detach s0 =>
      have hdet : stepPipe st (PipeOp.detach s0) = (detachSse st s0, []) := rfl
      rw [hdet]
      have hst' : LiveState (detachSse st s0) s := by
        intro c' hc2
        by_cases hss : s = s0
        · have h0 : (if (s == s0) = true then none else st.sseControllers s)
              = some c' := hc2
          rw [if_pos (by simp [hss])] at h0
          cases h0
        · have h0 : (if (s == s0) = true then none else st.sseControllers s)
              = some c' := hc2
          rw [if_neg (by simpa using hss)] at h0
          exact hst c' h0
      rw [delivery_invariant ops _ s hops' hst']
      have hp : pushesFor (PipeOp.detach s0 :: ops) s = pushesFor ops s := by
        simp [pushesFor]
      rw [hp]
      show framesFor [] s ++ _ = _
      rw [show framesFor [] s = [] from rfl, List.nil_append]
      rfl
    | connected s0 =>
      exact hop.elim

lemma pushConnected_none (st : PipeState) (s0 : String)
    (h : st.sseControllers s0 = none) : pushConnected st s0 = (st, []) := by
  simp [pushConnected, h]

lemma pushConnected_dead (st : PipeState) (s0 : String) (c : Controller)
    (h : st.sseControllers s0 = some c) (hca : c.alive = false) :
    pushConnected st s0 = (st, []) := by
  simp [pushConnected, h, writeSse, hca]

lemma pushConnected_alive (st : PipeState) (s0 : String) (c : Controller)
    (h : st.sseControllers s0 = some c) (hca : c.alive = true) :
    pushConnected st s0
      = (st, [⟨s0, c.cid, sseFrame (envelope (connectedParams s0))⟩]) := by
  simp [pushConnected, h, writeSse, hca]

lemma flush_frames (st : PipeState) (s0 : String) :
    ∀ w ∈ (flushPending st s0).2, ∃ params : Json,
      w.frame = "data: " ++ stringify (Json.obj [("jsonrpc", Json.str "2.0"),
        ("method", Json.str "session/update"), ("params", params)]) ++ "\n\n" := by
  intro w hw
  unfold flushPending at hw
  cases hctl : st.sseControllers s0 with
  | none =>
    rw [hctl] at hw
    exact absurd hw (List.not_mem_nil w)
  | some c =>
    rw [hctl] at hw
    dsimp only at hw
    by_cases hb : (st.pendingNotifications s0).isEmpty = true
    · rw [if_pos hb] at hw
      exact absurd hw (List.not_mem_nil w)
    · rw [if_neg hb] at hw
      rcases List.mem_filterMap.mp hw with ⟨n, _, heq⟩
      rcases Option.map_eq_some'.mp heq with ⟨f, hws, rfl⟩
      unfold writeSse at hws
      by_cases hca : c.alive = true
      · rw [if_pos hca] at hws
        injection hws with hws
        refine ⟨notifJson n, ?_⟩
        rw [← hws]
        rfl
      · rw [if_neg hca] at hws
        cases hws

lemma stepPipe_frames (st : PipeState) (op : PipeOp) :
    ∀ w ∈ (stepPipe st op).2, ∃ params : Json,
      w.frame = "data: " ++ stringify (Json.obj [("jsonrpc", Json.str "2.0"),
        ("method", Json.str "session/update"), ("params", params)]) ++ "\n\n" := by
  intro w hw
  cases op with
  | push n =>
    have hp : stepPipe st (PipeOp.push n) = pushNotification st n := rfl
    rw [hp] at hw
    cases hctl : st.sseControllers n.sessionId with
    | none =>
      rw [push_detached_eq st n hctl] at hw
      exact absurd hw (List.not_mem_nil w)
    | some c =>
      cases hca : c.alive with
      | false =>
        rw [push_dead_eq st n c hctl hca] at hw
        exact absurd hw (List.not_mem_nil w)
      | true =>
        rw [push_attached_eq st n c hctl hca] at hw
        rw [List.mem_singleton.mp hw]
        exact ⟨notifJson n, rfl⟩
  | attach s0 c =>
    exact flush_frames _ s0 w hw
  | detach s0 =>
    exact absurd hw (List.not_mem_nil w)
  | connected s0 =>
    have hp : stepPipe st (PipeOp.connected s0) = pushConnected st s0 := rfl
    rw [hp] at hw
    cases hctl : st.sseControllers s0 with
    | none =>
      rw [pushConnected_none st s0 hctl] at hw
      exact absurd hw (List.not_mem_nil w)
    | some c =>
      cases hca : c.alive with
      | false =>
        rw [pushConnected_dead st s0 c hctl hca] at hw
        exact absurd hw (List.not_mem_nil w)
      | true =>
        rw [pushConnected_alive st s0 c hctl hca] at hw
        rw [List.mem_singleton.mp hw]
        exact ⟨connectedParams s0, rfl⟩

lemma runPipe_frames :
    ∀ (ops : List PipeOp) (st : PipeState), ∀ w ∈ (runPipe st ops).2,
      ∃ params : Json,
        w.frame = "data: " ++ stringify (Json.obj [("jsonrpc", Json.str "2.0"),
          ("method", Json.str "session/update"), ("params", params)]) ++ "\n\n"
  | [], _, w, hw => absurd hw (List.not_mem_nil w)
  | op :: ops, st, w, hw => by
    rw [runPipe_cons_snd] at hw
    rcases List.mem_append.mp hw with hw | hw
    · exact stepPipe_frames st op w hw
    · exact runPipe_frames ops (stepPipe st op).1 w hw

end HttpSessionStore

/-- C5. Fixed-session delivery: across any interleaving of push, attach and
detach calls with live transports, the frames delivered for the session
followed by the frames its final buffer still owes are exactly the frames
of its pushNotification calls, in call order — no duplicates, no drops; in
particular notifications buffered before an attach are flushed in original
push order and the buffer is then cleared. The stated exception: a push
against a currently-attached-but-dead transport is swallowed — no write,
no rebuffering, the store unchanged. -/
theorem c5_session_pipe_delivery :
    (∀ (st : HttpSessionStore.PipeState) (ops : List HttpSessionStore.PipeOp)
        (s : String),
        HttpSessionStore.LiveOps ops → HttpSessionStore.LiveState st s →
        HttpSessionStore.framesFor (HttpSessionStore.runPipe st ops).2 s
            ++ ((HttpSessionStore.runPipe st ops).1.pendingNotifications s).map
                HttpSessionStore.frameOfNotif
          = (st.pendingNotifications s).map HttpSessionStore.frameOfNotif
            ++ (HttpSessionStore.pushesFor ops s).map HttpSessionStore.frameOfNotif)
    ∧ (∀ (st : HttpSessionStore.PipeState) (n : SessionNotification) (c : Controller),
        st.sseControllers n.sessionId = some c → c.alive = false →
        HttpSessionStore.pushNotification st n = (st, [])) :=
  ⟨fun st ops s hops hst => HttpSessionStore.delivery_invariant ops st s hops hst,
    fun st n c hctl hca => HttpSessionStore.push_dead_eq st n c hctl hca⟩

/-- Witness for `c5_session_pipe_delivery`: the six-operation trace
(buffer two, attach, push while attached, detach, buffer one) and a push
against a dead transport. -/
theorem c5_session_pipe_delivery_witness :
    ((HttpSessionStore.LiveOps c5Ops ∧ HttpSessionStore.LiveState c5St0 "s")
      ∧ HttpSessionStore.framesFor (HttpSessionStore.runPipe c5St0 c5Ops).2 "s"
            ++ ((HttpSessionStore.runPipe c5St0 c5Ops).1.pendingNotifications "s").map
                HttpSessionStore.frameOfNotif
          = (c5St0.pendingNotifications "s").map HttpSessionStore.frameOfNotif
            ++ (HttpSessionStore.pushesFor c5Ops "s").map HttpSessionStore.frameOfNotif)
    ∧ (c5StDead.sseControllers c5N1.sessionId = some c5CtrlDead
        ∧ c5CtrlDead.alive = false
        ∧ HttpSessionStore.pushNotification c5StDead c5N1 = (c5StDead, [])) := by
  have hops : HttpSessionStore.LiveOps c5Ops := by
    intro op h
    simp only [c5Ops, List.mem_cons, List.not_mem_nil, or_false] at h
    rcases h with rfl | rfl | rfl | rfl | rfl | rfl <;> trivial
  have hst : HttpSessionStore.LiveState c5St0 "s" := by
    intro c hc
    rw [show c5St0.sseControllers "s" = none from rfl] at hc
    cases hc
  exact ⟨⟨⟨hops, hst⟩, c5_session_pipe_delivery.1 c5St0 c5Ops "s" hops hst⟩,
    rfl, rfl, c5_session_pipe_delivery.2 c5StDead c5N1 c5CtrlDead rfl rfl⟩

/-- C9. Wire framing: every frame a trace ever writes — an immediate write,
an attach-time flush, or the synthetic connected notification — is
bit-exactly `data: <JSON>\n\n` where `<JSON>` serializes the envelope
`jsonrpc: "2.0", method: "session/update", params: <notification>`; and on
a concrete notification the serializer produces the exact JSON text. -/
theorem c9_sse_frame_format :
    (∀ (st : HttpSessionStore.PipeState) (ops : List HttpSessionStore.PipeOp)
        (w : HttpSessionStore.SseWrite), w ∈ (HttpSessionStore.runPipe st ops).2 →
        ∃ params : Json,
          w.frame = "data: " ++ stringify (Json.obj [("jsonrpc", Json.str "2.0"),
            ("method", Json.str "session/update"), ("params", params)]) ++ "\n\n")
    ∧ stringify (envelope (notifJson ⟨"s1", Json.str "hi"⟩))
        = "\x7b\"jsonrpc\":\"2.0\",\"method\":\"session/update\",\"params\":\x7b\"sessionId\":\"s1\",\"update\":\"hi\"\x7d\x7d" :=
  ⟨fun st ops w hw => HttpSessionStore.runPipe_frames ops st w hw, rfl⟩

/-- Witness for `c9_sse_frame_format`: the write produced by the concrete
attach-push-connected trace. -/
theorem c9_sse_frame_format_witness :
    c9Write ∈ (HttpSessionStore.runPipe c5St0 c9Ops).2
    ∧ ∃ params : Json,
        c9Write.frame = "data: " ++ stringify (Json.obj [("jsonrpc", Json.str "2.0"),
          ("method", Json.str "session/update"), ("params", params)]) ++ "\n\n" :=
  ⟨by decide, c9_sse_frame_format.1 c5St0 c9Ops c9Write (by decide)⟩

end Routa
